import Mathlib

/-
Verification of the HeroForge STL exporter core (src/lib/exporter.ts).

JavaScript numbers are modelled by exact rationals; the external renderer
math objects (RK.Matrix4, RK.Vec3) are modelled with the standard
column-major affine semantics the spec describes for world transforms.
-/

namespace HFE

/-- JavaScript truncation toward zero, as used by the remainder operator. -/
def jsTrunc (q : ℚ) : ℤ :=
  if 0 ≤ q then ⌊q⌋ else ⌈q⌉

/-- JavaScript remainder operator: x % m = x - m * trunc (x / m). -/
def jsRem (x m : ℚ) : ℚ :=
  x - m * jsTrunc (x / m)

/-- Mirrors the helper inside decodeWeight: mod n m = ((n % m) + m) % m. -/
def jsMod (n m : ℚ) : ℚ :=
  jsRem (jsRem n m + m) m

/-- decodeWeight from exporter.ts line 298: abs(mod(encodedWeight + 1, 2) - 1). -/
def decodeWeight (encodedWeight : ℚ) : ℚ :=
  |jsMod (encodedWeight + 1) 2 - 1|

/-- Column-major 4x4 matrix, mirroring the elements array of RK.Matrix4. -/
structure Matrix4 where
  e0 : ℚ
  e1 : ℚ
  e2 : ℚ
  e3 : ℚ
  e4 : ℚ
  e5 : ℚ
  e6 : ℚ
  e7 : ℚ
  e8 : ℚ
  e9 : ℚ
  e10 : ℚ
  e11 : ℚ
  e12 : ℚ
  e13 : ℚ
  e14 : ℚ
  e15 : ℚ
deriving DecidableEq, Repr

/-- Matrix given by the RK.Matrix4 constructor (identity). -/
def Matrix4.identity : Matrix4 :=
  ⟨1, 0, 0, 0, 0, 1, 0, 0, 0, 0, 1, 0, 0, 0, 0, 1⟩

/-- Matrix product a * b with column-major element storage
(a.multiply(b) of the renderer math library, modelled from the spec). -/
def Matrix4.multiply (a b : Matrix4) : Matrix4 where
  e0 := a.e0 * b.e0 + a.e4 * b.e1 + a.e8 * b.e2 + a.e12 * b.e3
  e1 := a.e1 * b.e0 + a.e5 * b.e1 + a.e9 * b.e2 + a.e13 * b.e3
  e2 := a.e2 * b.e0 + a.e6 * b.e1 + a.e10 * b.e2 + a.e14 * b.e3
  e3 := a.e3 * b.e0 + a.e7 * b.e1 + a.e11 * b.e2 + a.e15 * b.e3
  e4 := a.e0 * b.e4 + a.e4 * b.e5 + a.e8 * b.e6 + a.e12 * b.e7
  e5 := a.e1 * b.e4 + a.e5 * b.e5 + a.e9 * b.e6 + a.e13 * b.e7
  e6 := a.e2 * b.e4 + a.e6 * b.e5 + a.e10 * b.e6 + a.e14 * b.e7
  e7 := a.e3 * b.e4 + a.e7 * b.e5 + a.e11 * b.e6 + a.e15 * b.e7
  e8 := a.e0 * b.e8 + a.e4 * b.e9 + a.e8 * b.e10 + a.e12 * b.e11
  e9 := a.e1 * b.e8 + a.e5 * b.e9 + a.e9 * b.e10 + a.e13 * b.e11
  e10 := a.e2 * b.e8 + a.e6 * b.e9 + a.e10 * b.e10 + a.e14 * b.e11
  e11 := a.e3 * b.e8 + a.e7 * b.e9 + a.e11 * b.e10 + a.e15 * b.e11
  e12 := a.e0 * b.e12 + a.e4 * b.e13 + a.e8 * b.e14 + a.e12 * b.e15
  e13 := a.e1 * b.e12 + a.e5 * b.e13 + a.e9 * b.e14 + a.e13 * b.e15
  e14 := a.e2 * b.e12 + a.e6 * b.e13 + a.e10 * b.e14 + a.e14 * b.e15
  e15 := a.e3 * b.e12 + a.e7 * b.e13 + a.e11 * b.e14 + a.e15 * b.e15

/-- Vertex or vector of three rational coordinates (Vertex and RK.Vec3). -/
structure Vertex where
  x : ℚ
  y : ℚ
  z : ℚ
deriving DecidableEq, Repr

/-- Vec3.applyMatrix4 of the renderer math library (modelled from the spec,
standard perspective-dividing application; the divisor w is 1 for every
affine transform the exporter uses). -/
def Matrix4.applyToVertex (m : Matrix4) (v : Vertex) : Vertex :=
  let w := 1 / (m.e3 * v.x + m.e7 * v.y + m.e11 * v.z + m.e15)
  { x := (m.e0 * v.x + m.e4 * v.y + m.e8 * v.z + m.e12) * w
    y := (m.e1 * v.x + m.e5 * v.y + m.e9 * v.z + m.e13) * w
    z := (m.e2 * v.x + m.e6 * v.y + m.e10 * v.z + m.e14) * w }

/-- Vec3.addScaledVector: this + v * s, componentwise. -/
def Vertex.addScaledVector (a v : Vertex) (s : ℚ) : Vertex :=
  ⟨a.x + v.x * s, a.y + v.y * s, a.z + v.z * s⟩

/-- Vec3.divideScalar: componentwise division. -/
def Vertex.divideScalar (a : Vertex) (s : ℚ) : Vertex :=
  ⟨a.x / s, a.y / s, a.z / s⟩

/-- A bone as getBoneMatrix consumes it: its resolved world matrix, with
none standing for a bone whose matrixWorld and getMatrixWorld are both
unavailable. -/
structure Bone where
  matrixWorld : Option Matrix4
deriving DecidableEq, Repr

/-- Skeleton: index-aligned bones and bind-pose inverses; a none entry
models a missing (undefined) array element. -/
structure Skeleton where
  bones : List (Option Bone)
  boneInverses : List (Option Matrix4)
deriving DecidableEq, Repr

/-- getBoneMatrix from exporter.ts lines 306-327: returns the identity for
an out-of-range index or missing data, otherwise boneWorld * boneInverse. -/
def getBoneMatrix (skeleton : Skeleton) (boneIndex : ℤ) : Matrix4 :=
  let maxBoneIndex : ℤ := (skeleton.bones.length : ℤ) - 1
  if boneIndex < 0 ∨ maxBoneIndex < boneIndex then
    Matrix4.identity
  else
    match skeleton.bones.getD boneIndex.toNat none,
          skeleton.boneInverses.getD boneIndex.toNat none with
    | some bone, some boneInverse =>
      match bone.matrixWorld with
      | some boneWorld => boneWorld.multiply boneInverse
      | none => Matrix4.identity
    | _, _ => Matrix4.identity

/-- Vertex attribute view: a count and the getX/getY/getZ/getW accessors. -/
structure BufferAttribute where
  count : ℕ
  getX : ℕ → ℚ
  getY : ℕ → ℚ
  getZ : ℕ → ℚ
  getW : ℕ → ℚ

/-- Attribute whose reads all give zero, used as an in-range default. -/
def BufferAttribute.empty : BufferAttribute :=
  ⟨0, fun _ => 0, fun _ => 0, fun _ => 0, fun _ => 0⟩

/-- Geometry view: declared type, position attribute, the four optional
skin attributes, optional index array and morph-target position buffers. -/
structure BufferGeometry where
  type : String
  position : BufferAttribute
  skin0 : Option BufferAttribute
  skin1 : Option BufferAttribute
  skin2 : Option BufferAttribute
  skin3 : Option BufferAttribute
  index : Option (List ℤ)
  morphPositions : List BufferAttribute

/-- Scene node: a mesh or group with its flags, geometry, optional
skeleton and bind matrices, morph influences, and child nodes. -/
inductive Mesh where
  | mk
    (isMesh : Bool)
    (isSkinnedMesh : Bool)
    (visible : Bool)
    (name : String)
    (geometry : BufferGeometry)
    (skeleton : Option Skeleton)
    (matrixWorld : Matrix4)
    (bindMatrix : Option Matrix4)
    (bindMatrixInverse : Option Matrix4)
    (morphTargetInfluences : List ℚ)
    (children : List Mesh)

def Mesh.isMesh : Mesh → Bool
  | .mk a _ _ _ _ _ _ _ _ _ _ => a

def Mesh.isSkinnedMesh : Mesh → Bool
  | .mk _ a _ _ _ _ _ _ _ _ _ => a

def Mesh.visible : Mesh → Bool
  | .mk _ _ a _ _ _ _ _ _ _ _ => a

def Mesh.name : Mesh → String
  | .mk _ _ _ a _ _ _ _ _ _ _ => a

def Mesh.geometry : Mesh → BufferGeometry
  | .mk _ _ _ _ a _ _ _ _ _ _ => a

def Mesh.skeleton : Mesh → Option Skeleton
  | .mk _ _ _ _ _ a _ _ _ _ _ => a

def Mesh.matrixWorld : Mesh → Matrix4
  | .mk _ _ _ _ _ _ a _ _ _ _ => a

def Mesh.bindMatrix : Mesh → Option Matrix4
  | .mk _ _ _ _ _ _ _ a _ _ _ => a

def Mesh.bindMatrixInverse : Mesh → Option Matrix4
  | .mk _ _ _ _ _ _ _ _ a _ _ => a

def Mesh.morphTargetInfluences : Mesh → List ℚ
  | .mk _ _ _ _ _ _ _ _ _ a _ => a

def Mesh.children : Mesh → List Mesh
  | .mk _ _ _ _ _ _ _ _ _ _ a => a

/-- isIdentityMatrix from exporter.ts lines 399-421: a missing matrix
counts as identity, otherwise every element is compared with epsilon
0.0001. -/
def isIdentityMatrix : Option Matrix4 → Bool
  | none => true
  | some m =>
    decide (|m.e0 - 1| < (1 : ℚ)/10000 ∧ |m.e1| < 1/10000 ∧ |m.e2| < 1/10000 ∧
      |m.e3| < 1/10000 ∧ |m.e4| < 1/10000 ∧ |m.e5 - 1| < 1/10000 ∧
      |m.e6| < 1/10000 ∧ |m.e7| < 1/10000 ∧ |m.e8| < 1/10000 ∧
      |m.e9| < 1/10000 ∧ |m.e10 - 1| < 1/10000 ∧ |m.e11| < 1/10000 ∧
      |m.e12| < 1/10000 ∧ |m.e13| < 1/10000 ∧ |m.e14| < 1/10000 ∧
      |m.e15 - 1| < 1/10000)

/-- The present skin attributes, in slot order skin0..skin3. -/
def skinAttrsOf (g : BufferGeometry) : List BufferAttribute :=
  [g.skin0, g.skin1, g.skin2, g.skin3].filterMap id

/-- The two (floored bone index, decoded weight) pairs one skin attribute
carries for a vertex. -/
def attrPairs (attr : BufferAttribute) (vertexIndex : ℕ) : List (ℤ × ℚ) :=
  [(⌊attr.getX vertexIndex⌋, decodeWeight (attr.getY vertexIndex)),
   (⌊attr.getZ vertexIndex⌋, decodeWeight (attr.getW vertexIndex))]

/-- All (bone index, decoded weight) pairs of a vertex across the present
skin attributes, in the order the source iterates them. -/
def weightPairs (mesh : Mesh) (vertexIndex : ℕ) : List (ℤ × ℚ) :=
  (skinAttrsOf mesh.geometry).flatMap (fun a => attrPairs a vertexIndex)

/-- One conditional accumulation step of the skinning loop: a pair whose
decoded weight exceeds 0.0001 adds its weighted bone-transformed vertex
and its weight to the running sums. -/
def skinPairStep (skeleton : Skeleton) (skinVert : Vertex)
    (acc : Vertex × ℚ) (p : ℤ × ℚ) : Vertex × ℚ :=
  if (1 : ℚ)/10000 < p.2 then
    (acc.1.addScaledVector ((getBoneMatrix skeleton p.1).applyToVertex skinVert) p.2,
     acc.2 + p.2)
  else acc

/-- skinVertexWithPosition from exporter.ts lines 332-394.  The fold over
weightPairs performs exactly the two conditional accumulations the source
does per present skin attribute, in the same order. -/
def skinVertexWithPosition (mesh : Mesh) (vertexIndex : ℕ) (x y z : ℚ) : Vertex :=
  let position : Vertex := ⟨x, y, z⟩
  let skinAttrs := skinAttrsOf mesh.geometry
  match mesh.skeleton with
  | none => mesh.matrixWorld.applyToVertex position
  | some skeleton =>
    if skinAttrs.isEmpty then mesh.matrixWorld.applyToVertex position
    else
      let bindIsIdentity := isIdentityMatrix mesh.bindMatrix
      let skinVert :=
        match mesh.bindMatrix with
        | some bindMatrix =>
          if bindIsIdentity then position else bindMatrix.applyToVertex position
        | none => position
      let folded := (weightPairs mesh vertexIndex).foldl
        (skinPairStep skeleton skinVert) (⟨0, 0, 0⟩, 0)
      let skinned :=
        if (1 : ℚ)/10000 < folded.2 then folded.1.divideScalar folded.2 else skinVert
      match mesh.bindMatrixInverse with
      | some binv => if bindIsIdentity then skinned else binv.applyToVertex skinned
      | none => skinned

/-- Position of vertex i after morph-target blending (the base position
plus each morph delta whose influence exceeds 0.0001). -/
def extractVertexBase (mesh : Mesh) (i : ℕ) : Vertex :=
  let g := mesh.geometry
  let base : Vertex := ⟨g.position.getX i, g.position.getY i, g.position.getZ i⟩
  g.morphPositions.enum.foldl
    (fun v p =>
      let influence := mesh.morphTargetInfluences.getD p.1 0
      if (1 : ℚ)/10000 < influence then
        ⟨v.x + p.2.getX i * influence,
         v.y + p.2.getY i * influence,
         v.z + p.2.getZ i * influence⟩
      else v)
    base

/-- Flat position list plus the unchanged optional index list. -/
structure ExtractedGeometry where
  positions : List ℚ
  indices : Option (List ℤ)

/-- extractMeshGeometry from exporter.ts lines 528-584.  The source first
forces world-matrix updates on the mesh and its bones; the model reads the
already-updated snapshot. -/
def extractMeshGeometry (mesh : Mesh) : ExtractedGeometry :=
  let g := mesh.geometry
  let isSkinned := mesh.isSkinnedMesh && mesh.skeleton.isSome && g.skin0.isSome
  let positions := (List.range g.position.count).flatMap (fun i =>
    let base := extractVertexBase mesh i
    let v :=
      if isSkinned then skinVertexWithPosition mesh i base.x base.y base.z
      else mesh.matrixWorld.applyToVertex base
    [v.x, v.y, v.z])
  { positions := positions, indices := g.index }

/-- Triangle owning its three vertices. -/
structure Triangle where
  v1 : Vertex
  v2 : Vertex
  v3 : Vertex
deriving DecidableEq, Repr

/-- isValidVertex from exporter.ts lines 589-592: every coordinate has
absolute value below 100. -/
def isValidVertex (v : Vertex) : Prop :=
  |v.x| < 100 ∧ |v.y| < 100 ∧ |v.z| < 100

instance (v : Vertex) : Decidable (isValidVertex v) := by
  unfold isValidVertex; infer_instance

/-- Vertex read of getVertex inside collectTriangles.  A JS read outside
the positions array yields undefined coordinates, which the validity test
rejects exactly as it rejects out-of-range numbers; the none result stands
for that case. -/
def getVertexAt (positions : List ℚ) (idx : ℤ) : Option Vertex :=
  if 0 ≤ idx ∧ idx.toNat * 3 + 2 < positions.length then
    some ⟨positions.getD (idx.toNat * 3) 0,
          positions.getD (idx.toNat * 3 + 1) 0,
          positions.getD (idx.toNat * 3 + 2) 0⟩
  else none

/-- The three vertex reads of one addTriangle call. -/
def resolveTriple (positions : List ℚ) (t : ℤ × ℤ × ℤ) : Option Triangle :=
  match getVertexAt positions t.1, getVertexAt positions t.2.1,
        getVertexAt positions t.2.2 with
  | some v1, some v2, some v3 => some ⟨v1, v2, v3⟩
  | _, _, _ => none

/-- Index triples the two extraction loops of collectTriangles visit: a
loop for i = 0; i < n; i += 3 runs ceil(n/3) times; a read past the end of
the indices array (JS undefined) is modelled by the out-of-range sentinel
-1, which resolveTriple rejects as the undefined coordinates would be. -/
def candidateTriples (g : ExtractedGeometry) : List (ℤ × ℤ × ℤ) :=
  match g.indices with
  | some indices =>
    (List.range ((indices.length + 2) / 3)).map (fun k =>
      (indices.getD (3 * k) (-1), indices.getD (3 * k + 1) (-1),
       indices.getD (3 * k + 2) (-1)))
  | none =>
    let vertCount := g.positions.length / 3
    (List.range ((vertCount + 2) / 3)).map (fun k =>
      ((3 * k : ℤ), (3 * k + 1 : ℤ), (3 * k + 2 : ℤ)))

/-- addTriangle from exporter.ts lines 610-621: a triangle with any
invalid vertex is skipped and counted, the rest are appended. -/
def addTriangle (positions : List ℚ) (acc : List Triangle × ℕ)
    (t : ℤ × ℤ × ℤ) : List Triangle × ℕ :=
  match resolveTriple positions t with
  | some tri =>
    if isValidVertex tri.v1 ∧ isValidVertex tri.v2 ∧ isValidVertex tri.v3 then
      (acc.1 ++ [tri], acc.2)
    else (acc.1, acc.2 + 1)
  | none => (acc.1, acc.2 + 1)

/-- Triangle assembly of collectTriangles over already extracted
geometries, also returning the skipped-triangle count the source logs. -/
def collectTrianglesCore (gs : List ExtractedGeometry) : List Triangle × ℕ :=
  gs.foldl (fun acc g => (candidateTriples g).foldl (addTriangle g.positions) acc) ([], 0)

/-- collectTriangles from exporter.ts lines 597-640. -/
def collectTriangles (meshes : List Mesh) : List Triangle × ℕ :=
  collectTrianglesCore (meshes.map extractMeshGeometry)

/-- Axis remap and scale of transformTriangles: the new coordinates are
(x * scale, -z * scale, y * scale). -/
def remapVertex (scale : ℚ) (v : Vertex) : Vertex :=
  ⟨v.x * scale, -v.z * scale, v.y * scale⟩

def remapTriangle (scale : ℚ) (t : Triangle) : Triangle :=
  ⟨remapVertex scale t.v1, remapVertex scale t.v2, remapVertex scale t.v3⟩

/-- All z coordinates of a triangle list, in traversal order. -/
def zCoords (ts : List Triangle) : List ℚ :=
  ts.flatMap (fun t => [t.v1.z, t.v2.z, t.v3.z])

def translateZVertex (off : ℚ) (v : Vertex) : Vertex :=
  ⟨v.x, v.y, v.z + off⟩

def translateZTriangle (off : ℚ) (t : Triangle) : Triangle :=
  ⟨translateZVertex off t.v1, translateZVertex off t.v2, translateZVertex off t.v3⟩

/-- transformTriangles from exporter.ts lines 645-673: remap and scale
every vertex, then translate everything along z by (-minZ + 2.5).  On an
empty list the minimum in the source stays at positive infinity and the
translation loop has nothing to visit, so the list is returned as is. -/
def transformTriangles (triangles : List Triangle) (scale : ℚ) : List Triangle :=
  let remapped := triangles.map (remapTriangle scale)
  match zCoords remapped with
  | [] => remapped
  | z :: zs =>
    let minZ := zs.foldl min z
    let zOffset := -minZ + 5/2
    remapped.map (translateZTriangle zOffset)

/-- Lower-cased character list of a string (toLowerCase of the source). -/
def lowerChars (s : String) : List Char :=
  s.data.map Char.toLower

/-- Substring test on character lists (the includes method of JS strings). -/
def hasSubChars (sub : List Char) : List Char → Bool
  | [] => sub.isEmpty
  | l@(_ :: rest) => sub.isPrefixOf l || hasSubChars sub rest

/-- isBaseMesh from exporter.ts lines 426-437. -/
def isBaseMesh (slotName meshName : String) : Bool :=
  let lowerSlot := lowerChars slotName
  let lowerName := lowerChars meshName
  ['b','a','s','e'].isPrefixOf lowerSlot ||
  ['b','a','s','e'].isPrefixOf lowerName ||
  hasSubChars ['p','e','d','e','s','t','a','l'] lowerSlot ||
  hasSubChars ['p','e','d','e','s','t','a','l'] lowerName

/-- Ground, floor, plane, shadow and reflector, the substrings that
exclude a mesh or slot name. -/
def bannedNameSubstrs : List (List Char) :=
  [['g','r','o','u','n','d'], ['f','l','o','o','r'], ['p','l','a','n','e'],
   ['s','h','a','d','o','w'], ['r','e','f','l','e','c','t','o','r']]

/-- shouldIncludeMesh from exporter.ts lines 442-478. -/
def shouldIncludeMesh (mesh : Mesh) (slotName : String) : Bool :=
  if !mesh.visible then false
  else if ['_'].isPrefixOf slotName.data then false
  else if mesh.name = "facePads" || mesh.name = "_debugPass" then false
  else if mesh.geometry.position.count < 3 then false
  else if mesh.geometry.type = "PlaneBufferGeometry" ||
          mesh.geometry.type = "PlaneGeometry" then false
  else if bannedNameSubstrs.any (fun s => hasSubChars s (lowerChars mesh.name)) then false
  else if bannedNameSubstrs.any (fun s => hasSubChars s (lowerChars slotName)) then false
  else true

mutual

/-- collectRecursive from exporter.ts lines 493-509, returning the
character and base accumulators in push order. -/
def collectRec (slotName : String) : Mesh → List Mesh × List Mesh
  | m@(.mk im ism _ _ _ _ _ _ _ _ children) =>
    let own : List Mesh × List Mesh :=
      if (im || ism) && shouldIncludeMesh m slotName then
        if isBaseMesh slotName m.name then ([], [m]) else ([m], [])
      else ([], [])
    let rest := collectRecChildren slotName children
    (own.1 ++ rest.1, own.2 ++ rest.2)

/-- The child loop of collectRecursive; facePads and the debug pass are
not descended into. -/
def collectRecChildren (slotName : String) : List Mesh → List Mesh × List Mesh
  | [] => ([], [])
  | c :: cs =>
    let head :=
      if c.name = "facePads" || c.name = "_debugPass" then ([], [])
      else collectRec slotName c
    let rest := collectRecChildren slotName cs
    (head.1 ++ rest.1, head.2 ++ rest.2)

end

/-- The two ordered mesh sequences collectMeshes produces. -/
structure CollectedMeshes where
  characterMeshes : List Mesh
  baseMeshes : List Mesh

/-- collectMeshes from exporter.ts lines 483-518 over the slot-name to
root-node entries of the active display, in iteration order. -/
def collectMeshes (displayMeshes : List (String × Mesh)) : CollectedMeshes :=
  let results := displayMeshes.map (fun p =>
    if ['_'].isPrefixOf p.1.data then ([], []) else collectRec p.1 p.2)
  ⟨(results.map Prod.fst).flatten, (results.map Prod.snd).flatten⟩

/-- A node qualifies for inclusion when it is a mesh or skinned mesh and
shouldIncludeMesh accepts it. -/
def qualifiesNode (m : Mesh) (slotName : String) : Bool :=
  (m.isMesh || m.isSkinnedMesh) && shouldIncludeMesh m slotName

mutual

/-- Qualifying nodes of a subtree paired with their slot name, in the
traversal order of collectRecursive. -/
def includedNodes (slotName : String) : Mesh → List (String × Mesh)
  | m@(.mk _ _ _ _ _ _ _ _ _ _ children) =>
    (if qualifiesNode m slotName then [(slotName, m)] else []) ++
    includedNodesChildren slotName children

def includedNodesChildren (slotName : String) : List Mesh → List (String × Mesh)
  | [] => []
  | c :: cs =>
    (if c.name = "facePads" || c.name = "_debugPass" then []
     else includedNodes slotName c) ++
    includedNodesChildren slotName cs

end

/-- Qualifying nodes of the whole display in traversal order. -/
def includedNodesOf (displayMeshes : List (String × Mesh)) : List (String × Mesh) :=
  displayMeshes.flatMap (fun p =>
    if ['_'].isPrefixOf p.1.data then [] else includedNodes p.1 p.2)

/-- Two bytes of a little-endian 16-bit field (setUint16 wraps mod 2^16). -/
def u16le (n : ℕ) : List ℕ :=
  [n % 256, n / 256 % 256]

/-- Four bytes of a little-endian 32-bit field (setUint32 wraps mod 2^32). -/
def u32le (n : ℕ) : List ℕ :=
  [n % 256, n / 256 % 256, n / 65536 % 256, n / 16777216 % 256]

/-- Little-endian 32-bit read at a byte offset (getUint32 of a decoder). -/
def readU32le (l : List ℕ) (off : ℕ) : ℕ :=
  l.getD off 0 + 256 * l.getD (off + 1) 0 + 65536 * l.getD (off + 2) 0 +
    16777216 * l.getD (off + 3) 0

/-- Face normal vector with real components. -/
structure NormalVec where
  nx : ℝ
  ny : ℝ
  nz : ℝ

/-- calculateNormal from exporter.ts lines 678-698, with the platform
square root idealised as the real square root: the cross product of
(v2 - v1) and (v3 - v1), divided by its length when that is positive. -/
noncomputable def calculateNormal (v1 v2 v3 : Vertex) : NormalVec :=
  let ax : ℝ := (v2.x : ℝ) - (v1.x : ℝ)
  let ay : ℝ := (v2.y : ℝ) - (v1.y : ℝ)
  let az : ℝ := (v2.z : ℝ) - (v1.z : ℝ)
  let bx : ℝ := (v3.x : ℝ) - (v1.x : ℝ)
  let by' : ℝ := (v3.y : ℝ) - (v1.y : ℝ)
  let bz : ℝ := (v3.z : ℝ) - (v1.z : ℝ)
  let nx := ay * bz - az * by'
  let ny := az * bx - ax * bz
  let nz := ax * by' - ay * bx
  let len := Real.sqrt (nx * nx + ny * ny + nz * nz)
  if 0 < len then ⟨nx / len, ny / len, nz / len⟩ else ⟨nx, ny, nz⟩

/-- The 50-byte record of one triangle: normal, three vertices, two
reserved zero bytes.  The platform float32 encoding of DataView.setFloat32
is abstracted as the codec f32. -/
noncomputable def stlRecord (f32 : ℝ → List ℕ) (t : Triangle) : List ℕ :=
  let n := calculateNormal t.v1 t.v2 t.v3
  f32 n.nx ++ f32 n.ny ++ f32 n.nz ++
  f32 (t.v1.x : ℝ) ++ f32 (t.v1.y : ℝ) ++ f32 (t.v1.z : ℝ) ++
  f32 (t.v2.x : ℝ) ++ f32 (t.v2.y : ℝ) ++ f32 (t.v2.z : ℝ) ++
  f32 (t.v3.x : ℝ) ++ f32 (t.v3.y : ℝ) ++ f32 (t.v3.z : ℝ) ++ [0, 0]

/-- trianglesToSTL from exporter.ts lines 703-753: an 80-byte header of
character codes (setUint8 wraps mod 256, missing positions are zero), the
little-endian triangle count, then one 50-byte record per triangle. -/
noncomputable def trianglesToSTL (f32 : ℝ → List ℕ) (triangles : List Triangle)
    (headerText : List ℕ) : List ℕ :=
  ((List.range 80).map (fun i => headerText.getD i 0 % 256)) ++
  u32le triangles.length ++
  triangles.flatMap (stlRecord f32)

/-- Cross product of (v2 - v1) and (v3 - v1), in that order, as the real
vector the normal computation builds before normalisation. -/
def crossR (v1 v2 v3 : Vertex) : NormalVec :=
  ⟨((v2.y : ℝ) - (v1.y : ℝ)) * ((v3.z : ℝ) - (v1.z : ℝ)) -
     ((v2.z : ℝ) - (v1.z : ℝ)) * ((v3.y : ℝ) - (v1.y : ℝ)),
   ((v2.z : ℝ) - (v1.z : ℝ)) * ((v3.x : ℝ) - (v1.x : ℝ)) -
     ((v2.x : ℝ) - (v1.x : ℝ)) * ((v3.z : ℝ) - (v1.z : ℝ)),
   ((v2.x : ℝ) - (v1.x : ℝ)) * ((v3.y : ℝ) - (v1.y : ℝ)) -
     ((v2.y : ℝ) - (v1.y : ℝ)) * ((v3.x : ℝ) - (v1.x : ℝ))⟩

/-- Length of the cross product, the divisor of the normalisation. -/
noncomputable def crossNorm (v1 v2 v3 : Vertex) : ℝ :=
  Real.sqrt ((crossR v1 v2 v3).nx * (crossR v1 v2 v3).nx +
    (crossR v1 v2 v3).ny * (crossR v1 v2 v3).ny +
    (crossR v1 v2 v3).nz * (crossR v1 v2 v3).nz)

/-- Character codes of the default STL header label. -/
def defaultHeaderText : List ℕ :=
  "HeroForge Export".data.map Char.toNat

/-- Character codes of the character-file STL header label. -/
def characterHeaderText : List ℕ :=
  "HeroForge Character".data.map Char.toNat

/-- Character codes of the base-file STL header label. -/
def baseHeaderText : List ℕ :=
  "HeroForge Base".data.map Char.toNat

/-- One archive entry: UTF-8 name bytes and raw data bytes. -/
structure ZipFile where
  name : List ℕ
  data : List ℕ
deriving DecidableEq, Repr

namespace SimpleZip

/-- One byte entry of the CRC-32 table built by makeCRCTable: eight
steps of shift-and-conditional-xor with the reflected polynomial. -/
def crcTableEntry (i : ℕ) : ℕ :=
  (fun c => if c % 2 = 1 then 0xedb88320 ^^^ (c / 2) else c / 2)^[8] i

/-- crc32 from exporter.ts lines 266-275: initial value 0xffffffff, one
table step per byte, final complement. -/
def crc32 (data : List ℕ) : ℕ :=
  (data.foldl (fun crc b => (crc / 256) ^^^ crcTableEntry ((crc ^^^ b) % 256))
    0xffffffff) ^^^ 0xffffffff

/-- The 30-byte local file header followed by the name bytes
(createLocalHeader of the source). -/
def localHeaderBytes (f : ZipFile) : List ℕ :=
  u32le 0x04034b50 ++ u16le 20 ++ u16le 0 ++ u16le 0 ++ u16le 0 ++ u16le 0 ++
  u32le (crc32 f.data) ++ u32le f.data.length ++ u32le f.data.length ++
  u16le f.name.length ++ u16le 0 ++ f.name

/-- The 46-byte central directory record followed by the name bytes
(createCentralHeader of the source). -/
def centralHeaderBytes (f : ZipFile) (localOffset : ℕ) : List ℕ :=
  u32le 0x02014b50 ++ u16le 20 ++ u16le 20 ++ u16le 0 ++ u16le 0 ++ u16le 0 ++
  u16le 0 ++ u32le (crc32 f.data) ++ u32le f.data.length ++ u32le f.data.length ++
  u16le f.name.length ++ u16le 0 ++ u16le 0 ++ u16le 0 ++ u16le 0 ++ u32le 0 ++
  u32le localOffset ++ f.name

/-- The 22-byte end-of-central-directory record (createEOCD). -/
def eocdBytes (numFiles centralSize centralOffset : ℕ) : List ℕ :=
  u32le 0x06054b50 ++ u16le 0 ++ u16le 0 ++ u16le numFiles ++ u16le numFiles ++
  u32le centralSize ++ u32le centralOffset ++ u16le 0

/-- Local record of one entry: header plus raw data bytes. -/
def localChunk (f : ZipFile) : List ℕ :=
  localHeaderBytes f ++ f.data

/-- Byte offset of the i-th local record from the start of the archive. -/
def localOffsetOf (files : List ZipFile) (i : ℕ) : ℕ :=
  ((files.take i).map (fun f => (localChunk f).length)).sum

/-- Byte offset of the i-th central record from the central directory
start. -/
def centralOffsetOf (files : List ZipFile) (i : ℕ) : ℕ :=
  ((files.take i).map (fun f => 46 + f.name.length)).sum

/-- Central directory records in entry order, each carrying its local
record offset (the loop over this.files of generate). -/
def centralRecords (files : List ZipFile) : List (List ℕ) :=
  (List.range files.length).map (fun i =>
    centralHeaderBytes (files.getD i ⟨[], []⟩) (localOffsetOf files i))

/-- Byte offset of the central directory from the start of the archive,
the running offset of generate after all local records. -/
def centralBase (files : List ZipFile) : ℕ :=
  ((files.map localChunk).map List.length).sum

/-- generate from exporter.ts lines 153-200: all local records in order,
the central directory, then the end record. -/
def generate (files : List ZipFile) : List ℕ :=
  let locals := files.map localChunk
  let centralStart := (locals.map List.length).sum
  let centrals := centralRecords files
  let centralSize := (centrals.map List.length).sum
  locals.flatten ++ centrals.flatten ++ eocdBytes files.length centralSize centralStart

end SimpleZip

/-- Concrete two-entry file list for evaluating the archive writer. -/
def w7files : List ZipFile :=
  [⟨[65], [1, 2, 3]⟩, ⟨[66, 67], [9]⟩]


/-- The completed output handed to the save mechanism: nothing (aborted),
one STL buffer, or a ZIP of named STL buffers. -/
inductive ExportOutput where
  | empty : ExportOutput
  | single (filename : String) (buffer : List ℕ) : ExportOutput
  | archive (filename : String) (files : List (String × List ℕ)) : ExportOutput

/-- Names of the files inside an archive output, none for other outputs. -/
def archiveFileNames : ExportOutput → Option (List String)
  | .archive _ files => some (files.map Prod.fst)
  | _ => none

/-- exportCharacter from exporter.ts lines 775-840, starting from the
collected meshes (the environment checks and the scene update precede this
point; the downloaded archive buffer is SimpleZip.generate applied to the
listed entries). -/
noncomputable def exportCharacter (f32 : ℝ → List ℕ) (collected : CollectedMeshes)
    (filename : String) (scale : ℚ) (separateBase : Bool) : ExportOutput :=
  if collected.characterMeshes.isEmpty && collected.baseMeshes.isEmpty then
    .empty
  else if separateBase && !collected.baseMeshes.isEmpty then
    let charFiles :=
      if !collected.characterMeshes.isEmpty then
        [(filename ++ "-character.stl",
          trianglesToSTL f32
            (transformTriangles (collectTriangles collected.characterMeshes).1 scale)
            characterHeaderText)]
      else []
    let baseFiles :=
      if !collected.baseMeshes.isEmpty then
        [(filename ++ "-base.stl",
          trianglesToSTL f32
            (transformTriangles (collectTriangles collected.baseMeshes).1 scale)
            baseHeaderText)]
      else []
    .archive (filename ++ ".zip") (charFiles ++ baseFiles)
  else
    let allMeshes := collected.characterMeshes ++ collected.baseMeshes
    .single (filename ++ ".stl")
      (trianglesToSTL f32
        (transformTriangles (collectTriangles allMeshes).1 scale)
        defaultHeaderText)

/-- The kept triangle of one candidate triple: its resolved triangle when
all three vertices are readable and valid, otherwise none. -/
def keepTriple (positions : List ℚ) (t : ℤ × ℤ × ℤ) : Option Triangle :=
  match resolveTriple positions t with
  | some tri =>
    if isValidVertex tri.v1 ∧ isValidVertex tri.v2 ∧ isValidVertex tri.v3 then
      some tri
    else none
  | none => none

/-- Some vertex of the triangle has a coordinate of magnitude at least
100, the exclusion condition of the validity filter. -/
def hasBigCoord (t : Triangle) : Prop :=
  100 ≤ |t.v1.x| ∨ 100 ≤ |t.v1.y| ∨ 100 ≤ |t.v1.z| ∨
  100 ≤ |t.v2.x| ∨ 100 ≤ |t.v2.y| ∨ 100 ≤ |t.v2.z| ∨
  100 ≤ |t.v3.x| ∨ 100 ≤ |t.v3.y| ∨ 100 ≤ |t.v3.z|

instance (t : Triangle) : Decidable (hasBigCoord t) := by
  unfold hasBigCoord; infer_instance

/-- Concrete extracted geometry for evaluating collectTriangles: two
unindexed triangles, the second with an out-of-bound coordinate 150. -/
def w4g : ExtractedGeometry :=
  ⟨[0, 0, 0, 1, 0, 0, 0, 1, 0, 150, 0, 0, 1, 0, 0, 0, 1, 0], none⟩

/-- Routing of a slot-and-node list by the base-mesh test: the character
list keeps the nodes isBaseMesh rejects, the base list those it accepts,
both in order. -/
def routedPair (l : List (String × Mesh)) : List Mesh × List Mesh :=
  ((l.filter (fun p => !isBaseMesh p.1 p.2.name)).map Prod.snd,
   (l.filter (fun p => isBaseMesh p.1 p.2.name)).map Prod.snd)

/-- Concrete plain geometry with three vertices. -/
def scenarioGeom : BufferGeometry :=
  ⟨"BufferGeometry", ⟨3, fun _ => 0, fun _ => 0, fun _ => 0, fun _ => 0⟩,
   none, none, none, none, none, []⟩

/-- Concrete visible mesh named Pedestal. -/
def pedestalMesh : Mesh :=
  .mk true false true "Pedestal" scenarioGeom none Matrix4.identity none none [] []

/-- Concrete visible skinned mesh named Torso. -/
def torsoMesh : Mesh :=
  .mk true true true "Torso" scenarioGeom none Matrix4.identity none none [] []

/-- Concrete bind matrix, a translation by one unit along x. -/
def cexBind : Matrix4 :=
  ⟨1, 0, 0, 0, 0, 1, 0, 0, 0, 0, 1, 0, 1, 0, 0, 1⟩

/-- Concrete bind matrix inverse, a translation by minus one along x. -/
def cexBindInv : Matrix4 :=
  ⟨1, 0, 0, 0, 0, 1, 0, 0, 0, 0, 1, 0, -1, 0, 0, 1⟩

/-- Concrete bone world matrix, a uniform scaling by two. -/
def cexBoneWorld : Matrix4 :=
  ⟨2, 0, 0, 0, 0, 2, 0, 0, 0, 0, 2, 0, 0, 0, 0, 1⟩

/-- Concrete one-bone skeleton with identity bind-pose inverse. -/
def cexSkel : Skeleton :=
  ⟨[some ⟨some cexBoneWorld⟩], [some Matrix4.identity]⟩

/-- Concrete skin attribute: bone 0 with encoded weight 1 (decoding to
weight 1) in the first pair, zero weight in the second pair. -/
def cexSkinAttr : BufferAttribute :=
  ⟨1, fun _ => 0, fun _ => 1, fun _ => 0, fun _ => 0⟩

/-- Concrete geometry with one vertex and one skin attribute. -/
def cexGeom : BufferGeometry :=
  ⟨"BufferGeometry", ⟨1, fun _ => 0, fun _ => 0, fun _ => 0, fun _ => 0⟩,
   some cexSkinAttr, none, none, none, none, []⟩

/-- Concrete skinned mesh with a non-identity bind matrix. -/
def cexMesh : Mesh :=
  .mk true true true "Torso" cexGeom (some cexSkel) Matrix4.identity
    (some cexBind) (some cexBindInv) [] []

/-- Concrete skinned mesh with no bind matrix (identity handling). -/
def w2Mesh : Mesh :=
  .mk true true true "Torso" cexGeom (some cexSkel) Matrix4.identity
    none none [] []

/-- Concrete bone world matrix for evaluating getBoneMatrix. -/
def w3A : Matrix4 :=
  ⟨2, 0, 0, 0, 0, 3, 0, 0, 0, 0, 4, 0, 0, 0, 0, 1⟩

/-- Concrete bind-pose inverse for evaluating getBoneMatrix. -/
def w3B : Matrix4 :=
  ⟨1, 0, 0, 0, 0, 1, 0, 0, 0, 0, 1, 0, 5, 6, 7, 1⟩

/-- Concrete one-bone skeleton for evaluating getBoneMatrix. -/
def w3Skel : Skeleton :=
  ⟨[some ⟨some w3A⟩], [some w3B]⟩

/-- Concrete triangle list for evaluating transformTriangles. -/
def w5ts : List Triangle :=
  [⟨⟨0, 0, 0⟩, ⟨1, 0, 0⟩, ⟨0, 1, 0⟩⟩]

/-- Concrete collected meshes with a base mesh but no character meshes. -/
def cex8 : CollectedMeshes :=
  ⟨[], [pedestalMesh]⟩

/-- Concrete collected meshes with one character and one base mesh. -/
def w8 : CollectedMeshes :=
  ⟨[torsoMesh], [pedestalMesh]⟩

lemma jsTrunc_of_nonneg {q : ℚ} (h : 0 ≤ q) : jsTrunc q = ⌊q⌋ :=
  if_pos h

lemma jsTrunc_of_neg {q : ℚ} (h : q < 0) : jsTrunc q = ⌈q⌉ :=
  if_neg (not_le.mpr h)

lemma jsRem_two_small {r : ℚ} (h0 : 0 ≤ r) (h2 : r < 2) : jsRem (r + 2) 2 = r := by
  unfold jsRem
  have hq : 0 ≤ (r + 2) / 2 := by positivity
  rw [jsTrunc_of_nonneg hq]
  have hf : ⌊(r + 2) / 2⌋ = 1 := by
    rw [Int.floor_eq_iff]
    push_cast
    constructor <;> [linarith; linarith]
  rw [hf]
  push_cast
  ring

lemma jsRem_two_small_neg {r : ℚ} (h0 : -2 < r) (h2 : r < 0) :
    jsRem (r + 2) 2 = r + 2 := by
  unfold jsRem
  have hq : 0 ≤ (r + 2) / 2 := by linarith
  rw [jsTrunc_of_nonneg hq]
  have hf : ⌊(r + 2) / 2⌋ = 0 := by
    rw [Int.floor_eq_iff]
    push_cast
    constructor <;> [linarith; linarith]
  rw [hf]
  push_cast
  ring

lemma jsRem_two_cases (x : ℚ) :
    jsRem x 2 = 2 * Int.fract (x / 2) ∨
      (jsRem x 2 = 2 * Int.fract (x / 2) - 2 ∧ 0 < Int.fract (x / 2)) := by
  unfold jsRem
  have hfr : Int.fract (x / 2) = x / 2 - ⌊x / 2⌋ := (Int.self_sub_floor _).symm
  by_cases hx : 0 ≤ x
  · left
    rw [jsTrunc_of_nonneg (div_nonneg hx (by norm_num)), hfr]
    ring
  · push_neg at hx
    have hq : x / 2 < 0 := div_neg_of_neg_of_pos hx (by norm_num)
    rw [jsTrunc_of_neg hq]
    rcases Int.fract_eq_zero_or_add_one_sub_ceil (x / 2) with hf | hf
    · left
      have h2 : (⌊x / 2⌋ : ℚ) = x / 2 := by
        have := hfr.symm.trans hf
        linarith
      have h3 : ⌈x / 2⌉ = ⌊x / 2⌋ := by
        conv_lhs => rw [← h2]
        exact Int.ceil_intCast _
      rw [h3, hf, h2]
      ring
    · have hceil : (⌈x / 2⌉ : ℚ) = x / 2 + 1 - Int.fract (x / 2) := by
        linarith [hf]
      right
      constructor
      · rw [hceil]
        ring
      · have h1 := Int.ceil_lt_add_one (x / 2)
        linarith [hf, h1]

lemma jsMod_two (x : ℚ) : jsMod x 2 = 2 * Int.fract (x / 2) := by
  unfold jsMod
  have hfn := Int.fract_nonneg (x / 2)
  have hfl := Int.fract_lt_one (x / 2)
  rcases jsRem_two_cases x with h | ⟨h, hpos⟩
  · rw [h]
    exact jsRem_two_small (by linarith) (by linarith)
  · rw [h]
    have hs := jsRem_two_small_neg (r := 2 * Int.fract (x / 2) - 2)
      (by linarith) (by linarith)
    rw [hs]
    ring

lemma decodeWeight_fract (w : ℚ) :
    decodeWeight w = |2 * Int.fract ((w + 1) / 2) - 1| := by
  unfold decodeWeight
  rw [jsMod_two]

lemma decodeWeight_one : decodeWeight 1 = 1 := by
  rw [decodeWeight_fract]
  have h1 : ((1 : ℚ) + 1) / 2 = 1 := by norm_num
  rw [h1, Int.fract_one]
  norm_num

lemma decodeWeight_zero : decodeWeight 0 = 0 := by
  rw [decodeWeight_fract]
  have h1 : ((0 : ℚ) + 1) / 2 = 1 / 2 := by norm_num
  have h2 : Int.fract ((1 : ℚ) / 2) = 1 / 2 := by
    rw [Int.fract]
    have h3 : ⌊(1 : ℚ) / 2⌋ = 0 := by
      rw [Int.floor_eq_zero_iff]
      constructor <;> norm_num
    rw [h3]
    norm_num
  rw [h1, h2]
  norm_num

lemma decodeWeight_negOne : decodeWeight (-1) = 1 := by
  rw [decodeWeight_fract]
  have h1 : ((-1 : ℚ) + 1) / 2 = 0 := by norm_num
  rw [h1, Int.fract_zero]
  norm_num

/-- C1.  decodeWeight equals the double-remainder sawtooth formula of the
source, is periodic with period 2 over integer shifts, and takes the
values 1, 0, 1 at the encoded weights 1, 0, -1. -/
theorem decodeWeight_spec :
    (∀ w : ℚ, decodeWeight w = |jsRem (jsRem (w + 1) 2 + 2) 2 - 1|) ∧
    (∀ (w : ℚ) (k : ℤ), decodeWeight (w + 2 * k) = decodeWeight w) ∧
    decodeWeight 1 = 1 ∧ decodeWeight 0 = 0 ∧ decodeWeight (-1) = 1 := by
  refine ⟨fun w => rfl, fun w k => ?_, decodeWeight_one, decodeWeight_zero,
    decodeWeight_negOne⟩
  rw [decodeWeight_fract, decodeWeight_fract]
  have harg : (w + 2 * (k : ℚ) + 1) / 2 = (w + 1) / 2 + (k : ℚ) := by
    ring
  rw [harg, Int.fract_add_int]

/-- C3.  getBoneMatrix is total; an out-of-range index or missing bone
data gives the identity matrix, and complete data gives the bone world
matrix times the bind-pose inverse. -/
theorem getBoneMatrix_spec (s : Skeleton) (i : ℤ) :
    ((i < 0 ∨ (s.bones.length : ℤ) ≤ i) → getBoneMatrix s i = Matrix4.identity) ∧
    ((s.bones.getD i.toNat none = none ∨ s.boneInverses.getD i.toNat none = none ∨
      (∃ b, s.bones.getD i.toNat none = some b ∧ b.matrixWorld = none)) →
        getBoneMatrix s i = Matrix4.identity) ∧
    (∀ b w inv, s.bones.getD i.toNat none = some b → b.matrixWorld = some w →
      s.boneInverses.getD i.toNat none = some inv →
      0 ≤ i → i < (s.bones.length : ℤ) →
      getBoneMatrix s i = w.multiply inv) := by
  refine ⟨fun h => ?_, fun h => ?_, fun b w inv hb hw hinv h0 hlen => ?_⟩
  · have hr : i < 0 ∨ ((s.bones.length : ℤ) - 1) < i := by omega
    unfold getBoneMatrix
    rw [if_pos hr]
  · unfold getBoneMatrix
    by_cases hr : i < 0 ∨ ((s.bones.length : ℤ) - 1) < i
    · rw [if_pos hr]
    · rw [if_neg hr]
      rcases h with h | h | ⟨b, hb, hwn⟩
      · simp only [h]
      · cases hbb : s.bones.getD i.toNat none with
        | none => simp only [hbb]
        | some bone => simp only [hbb, h]
      · cases hbi : s.boneInverses.getD i.toNat none with
        | none => simp only [hb, hbi]
        | some inv => simp only [hb, hbi, hwn]
  · unfold getBoneMatrix
    have hr : ¬(i < 0 ∨ ((s.bones.length : ℤ) - 1) < i) := by omega
    rw [if_neg hr]
    simp only [hb, hinv, hw]

/-- Witness for C3 at a concrete skeleton: a present bone at index 0 and
the out-of-range index 7. -/
theorem getBoneMatrix_spec_witness :
    getBoneMatrix w3Skel 0 = w3A.multiply w3B ∧
    getBoneMatrix w3Skel 7 = Matrix4.identity := by
  constructor
  · exact (getBoneMatrix_spec w3Skel 0).2.2 ⟨some w3A⟩ w3A w3B rfl rfl rfl
      (by decide) (by decide)
  · exact (getBoneMatrix_spec w3Skel 7).1 (by decide)

lemma foldl_min_le_init (z : ℚ) (zs : List ℚ) : zs.foldl min z ≤ z := by
  induction zs generalizing z with
  | nil => exact le_refl z
  | cons a t ih =>
    simp only [List.foldl_cons]
    exact le_trans (ih (min z a)) (min_le_left z a)

lemma foldl_min_mem (z : ℚ) (zs : List ℚ) : zs.foldl min z ∈ z :: zs := by
  induction zs generalizing z with
  | nil => simp
  | cons a t ih =>
    simp only [List.foldl_cons]
    rcases List.mem_cons.mp (ih (min z a)) with h | h
    · rw [h]
      rcases min_choice z a with hm | hm
      · rw [hm]
        exact List.mem_cons_self _ _
      · rw [hm]
        exact List.mem_cons_of_mem _ (List.mem_cons_self _ _)
    · exact List.mem_cons_of_mem _ (List.mem_cons_of_mem _ h)

lemma foldl_min_le (z : ℚ) (zs : List ℚ) : ∀ w ∈ z :: zs, zs.foldl min z ≤ w := by
  induction zs generalizing z with
  | nil =>
    intro w hw
    rcases List.mem_cons.mp hw with rfl | hw
    · exact le_refl w
    · simp at hw
  | cons a t ih =>
    intro w hw
    simp only [List.foldl_cons]
    rcases List.mem_cons.mp hw with rfl | hw2
    · exact le_trans (foldl_min_le_init _ _) (min_le_left _ _)
    · rcases List.mem_cons.mp hw2 with rfl | hw3
      · exact le_trans (foldl_min_le_init _ _) (min_le_right _ _)
      · exact ih (min z a) w (List.mem_cons_of_mem _ hw3)

lemma zCoords_map_translate (off : ℚ) (l : List Triangle) :
    zCoords (l.map (translateZTriangle off)) = (zCoords l).map (· + off) := by
  induction l with
  | nil => rfl
  | cons t ts ih =>
    unfold zCoords at ih ⊢
    simp [translateZTriangle, translateZVertex, ih]

lemma zCoords_ne_nil {ts : List Triangle} (h : ts ≠ []) : zCoords ts ≠ [] := by
  cases ts with
  | nil => exact absurd rfl h
  | cons t rest => simp [zCoords]

/-- C5.  transformTriangles remaps every vertex to
(x * scale, -z * scale, y * scale), then translates everything along z by
(-minZ + 2.5); afterwards the minimum z coordinate is exactly 2.5. -/
theorem transformTriangles_spec (ts : List Triangle) (scale : ℚ) (h : ts ≠ []) :
    ∃ minZ : ℚ,
      minZ ∈ zCoords (ts.map (remapTriangle scale)) ∧
      (∀ w ∈ zCoords (ts.map (remapTriangle scale)), minZ ≤ w) ∧
      transformTriangles ts scale =
        (ts.map (remapTriangle scale)).map (translateZTriangle (-minZ + 5/2)) ∧
      (5 : ℚ)/2 ∈ zCoords (transformTriangles ts scale) ∧
      ∀ w ∈ zCoords (transformTriangles ts scale), (5 : ℚ)/2 ≤ w := by
  have hmap : ts.map (remapTriangle scale) ≠ [] := by
    cases ts with
    | nil => exact absurd rfl h
    | cons t rest => simp
  cases hz : zCoords (ts.map (remapTriangle scale)) with
  | nil => exact absurd hz (zCoords_ne_nil hmap)
  | cons z zs =>
    have ht : transformTriangles ts scale =
        (ts.map (remapTriangle scale)).map
          (translateZTriangle (-(zs.foldl min z) + 5/2)) := by
      simp only [transformTriangles, hz]
    refine ⟨zs.foldl min z, ?_, ?_, ht, ?_, ?_⟩
    · exact foldl_min_mem z zs
    · exact foldl_min_le z zs
    · rw [ht, zCoords_map_translate, hz]
      refine List.mem_map.mpr ⟨zs.foldl min z, foldl_min_mem z zs, by ring⟩
    · intro w hw
      rw [ht, zCoords_map_translate, hz] at hw
      rcases List.mem_map.mp hw with ⟨v, hv, rfl⟩
      have := foldl_min_le z zs v hv
      linarith

/-- Witness for C5 at a concrete one-triangle list with scale 1. -/
theorem transformTriangles_spec_witness :
    w5ts ≠ [] ∧
    ∃ minZ : ℚ,
      minZ ∈ zCoords (w5ts.map (remapTriangle 1)) ∧
      (∀ w ∈ zCoords (w5ts.map (remapTriangle 1)), minZ ≤ w) ∧
      transformTriangles w5ts 1 =
        (w5ts.map (remapTriangle 1)).map (translateZTriangle (-minZ + 5/2)) ∧
      (5 : ℚ)/2 ∈ zCoords (transformTriangles w5ts 1) ∧
      ∀ w ∈ zCoords (transformTriangles w5ts 1), (5 : ℚ)/2 ≤ w :=
  ⟨by decide, transformTriangles_spec w5ts 1 (by decide)⟩

lemma validTriangle_iff_not_big (tri : Triangle) :
    (isValidVertex tri.v1 ∧ isValidVertex tri.v2 ∧ isValidVertex tri.v3) ↔
      ¬ hasBigCoord tri := by
  unfold isValidVertex hasBigCoord
  simp only [not_or, not_le]
  tauto

lemma foldl_addTriangle (positions : List ℚ) (triples : List (ℤ × ℤ × ℤ)) :
    ∀ acc : List Triangle × ℕ,
      triples.foldl (addTriangle positions) acc =
        (acc.1 ++ triples.filterMap (keepTriple positions),
         acc.2 + triples.countP (fun t => (keepTriple positions t).isNone)) := by
  induction triples with
  | nil => intro acc; simp
  | cons t ts ih =>
    intro acc
    simp only [List.foldl_cons]
    rw [ih]
    cases hr : resolveTriple positions t with
    | none =>
      have ha : addTriangle positions acc t = (acc.1, acc.2 + 1) := by
        simp [addTriangle, hr]
      rw [ha]
      simp only [List.filterMap_cons, List.countP_cons, keepTriple, hr]
      simp
      omega
    | some tri =>
      by_cases hv : isValidVertex tri.v1 ∧ isValidVertex tri.v2 ∧ isValidVertex tri.v3
      · have ha : addTriangle positions acc t = (acc.1 ++ [tri], acc.2) := by
          simp [addTriangle, hr, hv]
        rw [ha]
        simp only [List.filterMap_cons, List.countP_cons, keepTriple, hr]
        simp [hv]
      · have ha : addTriangle positions acc t = (acc.1, acc.2 + 1) := by
          simp [addTriangle, hr, hv]
        rw [ha]
        simp only [List.filterMap_cons, List.countP_cons, keepTriple, hr]
        simp [hv]
        omega

lemma collectTrianglesCore_eq (gs : List ExtractedGeometry) :
    collectTrianglesCore gs =
      (gs.flatMap (fun g => (candidateTriples g).filterMap (keepTriple g.positions)),
       (gs.map (fun g =>
         (candidateTriples g).countP
           (fun t => (keepTriple g.positions t).isNone))).sum) := by
  unfold collectTrianglesCore
  suffices h : ∀ acc : List Triangle × ℕ,
      gs.foldl (fun acc g => (candidateTriples g).foldl (addTriangle g.positions) acc) acc =
        (acc.1 ++ gs.flatMap (fun g => (candidateTriples g).filterMap (keepTriple g.positions)),
         acc.2 + (gs.map (fun g =>
           (candidateTriples g).countP
             (fun t => (keepTriple g.positions t).isNone))).sum) by
    rw [h ([], 0)]
    simp
  induction gs with
  | nil => intro acc; simp
  | cons g rest ih =>
    intro acc
    simp only [List.foldl_cons]
    rw [foldl_addTriangle, ih]
    simp [List.flatMap_cons, List.append_assoc]
    omega

lemma keep_eq_of_resolved (positions : List ℚ) (triples : List (ℤ × ℤ × ℤ))
    (h : ∀ t ∈ triples, (resolveTriple positions t).isSome) :
    triples.filterMap (keepTriple positions) =
      (triples.filterMap (resolveTriple positions)).filter
        (fun tri => !decide (hasBigCoord tri)) ∧
    triples.countP (fun t => (keepTriple positions t).isNone) =
      (triples.filterMap (resolveTriple positions)).countP
        (fun tri => decide (hasBigCoord tri)) := by
  induction triples with
  | nil => simp
  | cons t ts ih =>
    have hts : ∀ t ∈ ts, (resolveTriple positions t).isSome := by
      intro u hu
      exact h u (List.mem_cons_of_mem _ hu)
    rcases ih hts with ⟨ih1, ih2⟩
    have hh := h t (List.mem_cons_self _ _)
    cases hr : resolveTriple positions t with
    | none => rw [hr] at hh; simp at hh
    | some tri =>
      by_cases hv : isValidVertex tri.v1 ∧ isValidVertex tri.v2 ∧ isValidVertex tri.v3
      · have hnb : ¬ hasBigCoord tri := (validTriangle_iff_not_big tri).mp hv
        have hp : keepTriple positions t = some tri := by
          simp [keepTriple, hr, hv]
        constructor
        · simp only [List.filterMap_cons, hr, hp, List.filter_cons]
          simp [hnb, ih1]
        · simp only [List.countP_cons, List.filterMap_cons, hr, hp]
          simp [hnb, ih2]
      · have hb : hasBigCoord tri := by
          by_contra hnb
          exact hv ((validTriangle_iff_not_big tri).mpr hnb)
        have hp : keepTriple positions t = none := by
          simp [keepTriple, hr, hv]
        constructor
        · simp only [List.filterMap_cons, hr, hp, List.filter_cons]
          simp [hb, ih1]
        · simp only [List.countP_cons, List.filterMap_cons, hr, hp]
          simp [hb, ih2]

lemma keep_lists_of_resolved :
    ∀ gs : List ExtractedGeometry,
      (∀ g ∈ gs, ∀ t ∈ candidateTriples g, (resolveTriple g.positions t).isSome) →
      gs.flatMap (fun g => (candidateTriples g).filterMap (keepTriple g.positions)) =
        gs.flatMap (fun g =>
          ((candidateTriples g).filterMap (resolveTriple g.positions)).filter
            (fun tri => !decide (hasBigCoord tri))) ∧
      (gs.map (fun g =>
        (candidateTriples g).countP (fun t => (keepTriple g.positions t).isNone))).sum =
        (gs.map (fun g =>
          ((candidateTriples g).filterMap (resolveTriple g.positions)).countP
            (fun tri => decide (hasBigCoord tri)))).sum := by
  intro gs
  induction gs with
  | nil => exact fun _ => ⟨rfl, rfl⟩
  | cons g rest ih =>
    intro h
    rcases ih (fun u hu t ht => h u (List.mem_cons_of_mem _ hu) t ht) with ⟨ih1, ih2⟩
    rcases keep_eq_of_resolved g.positions (candidateTriples g)
      (fun t ht => h g (List.mem_cons_self _ _) t ht) with ⟨k1, k2⟩
    constructor
    · simp only [List.flatMap_cons, k1, ih1]
    · simp only [List.map_cons, List.sum_cons, k2, ih2]

/-- C4.  When every candidate triple reads three in-bounds vertices, the
assembled list keeps exactly the candidate triangles all of whose
coordinates have magnitude below 100, in order, and the skipped count is
exactly the number of candidate triangles with some coordinate of
magnitude at least 100, one per triangle; the assembly is a total
function, so no input aborts it. -/
theorem collectTriangles_filter_spec (gs : List ExtractedGeometry)
    (h : ∀ g ∈ gs, ∀ t ∈ candidateTriples g, (resolveTriple g.positions t).isSome) :
    (collectTrianglesCore gs).1 =
      gs.flatMap (fun g =>
        ((candidateTriples g).filterMap (resolveTriple g.positions)).filter
          (fun tri => !decide (hasBigCoord tri))) ∧
    (collectTrianglesCore gs).2 =
      (gs.map (fun g =>
        ((candidateTriples g).filterMap (resolveTriple g.positions)).countP
          (fun tri => decide (hasBigCoord tri)))).sum := by
  rw [collectTrianglesCore_eq]
  exact keep_lists_of_resolved gs h

/-- Witness for C4 at a concrete two-triangle geometry whose second
triangle carries the coordinate 150. -/
theorem collectTriangles_filter_spec_witness :
    (∀ g ∈ [w4g], ∀ t ∈ candidateTriples g, (resolveTriple g.positions t).isSome) ∧
    ((collectTrianglesCore [w4g]).1 =
      [w4g].flatMap (fun g =>
        ((candidateTriples g).filterMap (resolveTriple g.positions)).filter
          (fun tri => !decide (hasBigCoord tri))) ∧
    (collectTrianglesCore [w4g]).2 =
      ([w4g].map (fun g =>
        ((candidateTriples g).filterMap (resolveTriple g.positions)).countP
          (fun tri => decide (hasBigCoord tri)))).sum) :=
  ⟨by decide, collectTriangles_filter_spec [w4g] (by decide)⟩

lemma smallThreshLt : ((10000 : ℚ)⁻¹) < 1 := by norm_num

lemma smallThreshNotLe : ¬((1 : ℚ) ≤ (10000 : ℚ)⁻¹) := by norm_num

lemma foldl_skinPairStep_nil_filter (skel : Skeleton) (sv : Vertex) :
    ∀ (ps : List (ℤ × ℚ)) (acc : Vertex × ℚ),
      ps.filter (fun p => decide ((1 : ℚ)/10000 < p.2)) = [] →
      ps.foldl (skinPairStep skel sv) acc = acc := by
  intro ps
  induction ps with
  | nil => intro acc _; rfl
  | cons p ps ih =>
    intro acc hf
    rw [List.filter_cons] at hf
    by_cases hp : (1 : ℚ)/10000 < p.2
    · rw [if_pos (decide_eq_true hp)] at hf
      exact absurd hf (List.cons_ne_nil _ _)
    · have hd : ¬(decide ((1 : ℚ)/10000 < p.2) = true) := by
        rw [decide_eq_false hp]
        exact Bool.false_ne_true
      rw [if_neg hd] at hf
      simp only [List.foldl_cons]
      have hstep : skinPairStep skel sv acc p = acc := by
        unfold skinPairStep
        rw [if_neg hp]
      rw [hstep]
      exact ih acc hf

lemma foldl_skinPairStep_single_filter (skel : Skeleton) (sv : Vertex) :
    ∀ (ps : List (ℤ × ℚ)) (acc : Vertex × ℚ) (b : ℤ) (w : ℚ),
      ps.filter (fun p => decide ((1 : ℚ)/10000 < p.2)) = [(b, w)] →
      ps.foldl (skinPairStep skel sv) acc = skinPairStep skel sv acc (b, w) := by
  intro ps
  induction ps with
  | nil => intro acc b w hf; simp at hf
  | cons p ps ih =>
    intro acc b w hf
    rw [List.filter_cons] at hf
    by_cases hp : (1 : ℚ)/10000 < p.2
    · rw [if_pos (decide_eq_true hp)] at hf
      obtain ⟨h1, h2⟩ := List.cons_eq_cons.mp hf
      simp only [List.foldl_cons]
      rw [foldl_skinPairStep_nil_filter skel sv ps _ h2, h1]
    · have hd : ¬(decide ((1 : ℚ)/10000 < p.2) = true) := by
        rw [decide_eq_false hp]
        exact Bool.false_ne_true
      rw [if_neg hd] at hf
      simp only [List.foldl_cons]
      have hstep : skinPairStep skel sv acc p = acc := by
        unfold skinPairStep
        rw [if_neg hp]
      rw [hstep]
      exact ih acc b w hf

/-- C2 as amended.  For a vertex whose skin attributes decode to exactly
one weight above the 0.0001 threshold, that weight being 1 on bone b: with
an identity (or absent) bind matrix the result is the position transformed
by bone b's skin matrix; with a non-identity bind matrix the result is
instead the bind-matrix inverse applied to the skin-matrix image of the
bind-transformed position. -/
theorem skinVertex_single_weight (mesh : Mesh) (skel : Skeleton) (vertexIndex : ℕ)
    (x y z : ℚ) (b : ℤ)
    (hskel : mesh.skeleton = some skel)
    (hattrs : (skinAttrsOf mesh.geometry).isEmpty = false)
    (hpairs : (weightPairs mesh vertexIndex).filter
        (fun p => decide ((1 : ℚ)/10000 < p.2)) = [(b, 1)]) :
    (isIdentityMatrix mesh.bindMatrix = true →
      skinVertexWithPosition mesh vertexIndex x y z =
        (getBoneMatrix skel b).applyToVertex ⟨x, y, z⟩) ∧
    (∀ bm bmi, mesh.bindMatrix = some bm → mesh.bindMatrixInverse = some bmi →
      isIdentityMatrix mesh.bindMatrix = false →
      skinVertexWithPosition mesh vertexIndex x y z =
        bmi.applyToVertex
          ((getBoneMatrix skel b).applyToVertex (bm.applyToVertex ⟨x, y, z⟩))) := by
  have hw : (1 : ℚ)/10000 < 1 := by norm_num
  have hfold : ∀ sv : Vertex,
      (weightPairs mesh vertexIndex).foldl (skinPairStep skel sv) (⟨0, 0, 0⟩, 0) =
        ((getBoneMatrix skel b).applyToVertex sv, 1) := by
    intro sv
    rw [foldl_skinPairStep_single_filter skel sv _ _ b 1 hpairs]
    simp [skinPairStep, hw, Vertex.addScaledVector, smallThreshLt]
  constructor
  · intro hid
    cases hbm : mesh.bindMatrix with
    | none =>
      cases hbmi : mesh.bindMatrixInverse with
      | none =>
        simp only [skinVertexWithPosition, hskel, hattrs, hbm, hbmi]
        rw [hfold]
        simp [Vertex.divideScalar, hw, smallThreshLt, smallThreshNotLe]
      | some bmi =>
        rw [hbm] at hid
        simp only [skinVertexWithPosition, hskel, hattrs, hbm, hbmi, hid]
        rw [hfold]
        simp [Vertex.divideScalar, hw, smallThreshLt, smallThreshNotLe]
    | some bm =>
      rw [hbm] at hid
      cases hbmi : mesh.bindMatrixInverse with
      | none =>
        simp only [skinVertexWithPosition, hskel, hattrs, hbm, hbmi, hid]
        rw [hfold]
        simp [Vertex.divideScalar, hw, smallThreshLt, smallThreshNotLe]
      | some bmi =>
        simp only [skinVertexWithPosition, hskel, hattrs, hbm, hbmi, hid]
        rw [hfold]
        simp [Vertex.divideScalar, hw, smallThreshLt, smallThreshNotLe]
  · intro bm bmi hbm hbmi hid
    rw [hbm] at hid
    simp only [skinVertexWithPosition, hskel, hattrs, hbm, hbmi, hid]
    rw [hfold]
    simp [Vertex.divideScalar, hw, smallThreshLt, smallThreshNotLe]

lemma weightPairs_cexGeom (m : Mesh) (h : m.geometry = cexGeom) :
    weightPairs m 0 = [(0, 1), (0, 0)] := by
  unfold weightPairs skinAttrsOf attrPairs
  rw [h]
  show ([cexGeom.skin0, cexGeom.skin1, cexGeom.skin2, cexGeom.skin3].filterMap id).flatMap _ = _
  have h0 : cexGeom.skin0 = some cexSkinAttr := rfl
  have h1 : cexGeom.skin1 = none := rfl
  have h2 : cexGeom.skin2 = none := rfl
  have h3 : cexGeom.skin3 = none := rfl
  rw [h0, h1, h2, h3]
  show [(⌊cexSkinAttr.getX 0⌋, decodeWeight (cexSkinAttr.getY 0)),
        (⌊cexSkinAttr.getZ 0⌋, decodeWeight (cexSkinAttr.getW 0))] = _
  have hx : cexSkinAttr.getX 0 = 0 := rfl
  have hy : cexSkinAttr.getY 0 = 1 := rfl
  have hz : cexSkinAttr.getZ 0 = 0 := rfl
  have hw : cexSkinAttr.getW 0 = 0 := rfl
  rw [hx, hy, hz, hw, decodeWeight_one, decodeWeight_zero, Int.floor_zero]

lemma filter_cexPairs :
    ([((0 : ℤ), (1 : ℚ)), (0, 0)].filter
      (fun p => decide ((1 : ℚ)/10000 < p.2))) = [(0, 1)] := by
  rw [List.filter_cons, if_pos (decide_eq_true (show (1 : ℚ)/10000 < 1 by norm_num)),
    List.filter_cons]
  rw [if_neg (by
    rw [decide_eq_false (show ¬((1 : ℚ)/10000 < 0) by norm_num)]
    exact Bool.false_ne_true)]
  rfl

/-- Witness for the amended C2 at a concrete mesh with no bind matrix. -/
theorem skinVertex_single_weight_witness :
    ((weightPairs w2Mesh 0).filter (fun p => decide ((1 : ℚ)/10000 < p.2)) = [(0, 1)]) ∧
    skinVertexWithPosition w2Mesh 0 2 3 4 =
      (getBoneMatrix cexSkel 0).applyToVertex ⟨2, 3, 4⟩ := by
  have hp : (weightPairs w2Mesh 0).filter
      (fun p => decide ((1 : ℚ)/10000 < p.2)) = [(0, 1)] := by
    rw [weightPairs_cexGeom w2Mesh rfl]
    exact filter_cexPairs
  exact ⟨hp, (skinVertex_single_weight w2Mesh cexSkel 0 2 3 4 0 rfl rfl hp).1 rfl⟩

/-- Counterexample to C2 as stated: a mesh with a non-identity bind
matrix whose single above-threshold weight is 1 on bone 0, where the
returned position differs from the skin-matrix image of the input. -/
theorem skinVertex_single_weight_cex :
    ((weightPairs cexMesh 0).filter (fun p => decide ((1 : ℚ)/10000 < p.2)) = [(0, 1)]) ∧
    skinVertexWithPosition cexMesh 0 0 0 0 ≠
      (getBoneMatrix cexSkel 0).applyToVertex ⟨0, 0, 0⟩ := by
  have hp : (weightPairs cexMesh 0).filter
      (fun p => decide ((1 : ℚ)/10000 < p.2)) = [(0, 1)] := by
    rw [weightPairs_cexGeom cexMesh rfl]
    exact filter_cexPairs
  refine ⟨hp, ?_⟩
  have hw : (1 : ℚ)/10000 < 1 := by norm_num
  have hfold : ∀ sv : Vertex,
      (weightPairs cexMesh 0).foldl (skinPairStep cexSkel sv) (⟨0, 0, 0⟩, 0) =
        ((getBoneMatrix cexSkel 0).applyToVertex sv, 1) := by
    intro sv
    rw [foldl_skinPairStep_single_filter cexSkel sv _ _ 0 1 hp]
    simp [skinPairStep, hw, Vertex.addScaledVector, smallThreshLt]
  have hid : isIdentityMatrix (some cexBind) = false := by
    unfold isIdentityMatrix
    exact decide_eq_false
      (fun h => absurd h.2.2.2.2.2.2.2.2.2.2.2.2.1 (by norm_num [cexBind]))
  have heval : skinVertexWithPosition cexMesh 0 0 0 0 =
      cexBindInv.applyToVertex
        ((getBoneMatrix cexSkel 0).applyToVertex (cexBind.applyToVertex ⟨0, 0, 0⟩)) := by
    have hsk : cexMesh.skeleton = some cexSkel := rfl
    have hbm : cexMesh.bindMatrix = some cexBind := rfl
    have hbmi : cexMesh.bindMatrixInverse = some cexBindInv := rfl
    have hae : (skinAttrsOf cexMesh.geometry).isEmpty = false := rfl
    simp only [skinVertexWithPosition, hsk, hae, hbm, hbmi, hid]
    rw [hfold]
    simp [Vertex.divideScalar, hw, hid, smallThreshLt, smallThreshNotLe]
  have hM : getBoneMatrix cexSkel 0 = cexBoneWorld.multiply Matrix4.identity := by
    unfold getBoneMatrix cexSkel
    rw [if_neg (by decide)]
    rfl
  have h1 : cexBind.applyToVertex ⟨0, 0, 0⟩ = ⟨1, 0, 0⟩ := by
    norm_num [Matrix4.applyToVertex, cexBind]
  have h2 : (cexBoneWorld.multiply Matrix4.identity).applyToVertex ⟨1, 0, 0⟩ =
      ⟨2, 0, 0⟩ := by
    norm_num [Matrix4.multiply, Matrix4.applyToVertex, cexBoneWorld, Matrix4.identity]
  have h3 : cexBindInv.applyToVertex ⟨2, 0, 0⟩ = ⟨1, 0, 0⟩ := by
    norm_num [Matrix4.applyToVertex, cexBindInv]
  have h4 : (cexBoneWorld.multiply Matrix4.identity).applyToVertex ⟨0, 0, 0⟩ =
      ⟨0, 0, 0⟩ := by
    norm_num [Matrix4.multiply, Matrix4.applyToVertex, cexBoneWorld, Matrix4.identity]
  rw [heval, hM, h1, h2, h3, h4]
  intro hcontra
  have := congrArg Vertex.x hcontra
  norm_num at this

lemma routedPair_append (a b : List (String × Mesh)) :
    routedPair (a ++ b) =
      ((routedPair a).1 ++ (routedPair b).1, (routedPair a).2 ++ (routedPair b).2) := by
  simp [routedPair]

lemma collectRecChildren_routed (slot : String) :
    ∀ cs : List Mesh,
      (∀ c ∈ cs, ∀ s, collectRec s c = routedPair (includedNodes s c)) →
      collectRecChildren slot cs = routedPair (includedNodesChildren slot cs) := by
  intro cs
  induction cs with
  | nil => intro _; rfl
  | cons c cs ih =>
    intro h
    have hc := h c (List.mem_cons_self _ _) slot
    have hrest := ih (fun u hu s => h u (List.mem_cons_of_mem _ hu) s)
    simp only [collectRecChildren, includedNodesChildren]
    by_cases h1 : c.name = "facePads"
    · simp [h1, hrest]
    · by_cases h2 : c.name = "_debugPass"
      · simp [h1, h2, hrest]
      · simp [h1, h2, hc, hrest, routedPair_append]

lemma collectRec_routed_aux :
    ∀ (n : ℕ) (m : Mesh), sizeOf m ≤ n →
      ∀ slot, collectRec slot m = routedPair (includedNodes slot m) := by
  intro n
  induction n with
  | zero =>
    intro m hm
    exfalso
    cases m
    simp at hm
  | succ n ih =>
    intro m hm slot
    cases m with
    | mk im ism vis nm geo sk mw bm bmi mti children =>
      have hch : ∀ c ∈ children, ∀ s,
          collectRec s c = routedPair (includedNodes s c) := by
        intro c hcm s
        have h1 : sizeOf c < sizeOf children := List.sizeOf_lt_of_mem hcm
        have h2 : sizeOf children < sizeOf
            (Mesh.mk im ism vis nm geo sk mw bm bmi mti children) := by
          simp
        exact ih c (by omega) s
      have hkids := collectRecChildren_routed slot children hch
      simp only [collectRec, includedNodes, hkids, qualifiesNode, Mesh.isMesh,
        Mesh.isSkinnedMesh, Mesh.name]
      by_cases hq : ((im || ism) &&
          shouldIncludeMesh (Mesh.mk im ism vis nm geo sk mw bm bmi mti children) slot) = true
      · rw [if_pos hq, if_pos hq]
        by_cases hb : isBaseMesh slot nm = true
        · rw [if_pos hb, routedPair_append]
          have hsing : routedPair
              [(slot, Mesh.mk im ism vis nm geo sk mw bm bmi mti children)] =
              ([], [Mesh.mk im ism vis nm geo sk mw bm bmi mti children]) := by
            simp [routedPair, Mesh.name, hb]
          rw [hsing]
        · rw [if_neg hb, routedPair_append]
          have hsing : routedPair
              [(slot, Mesh.mk im ism vis nm geo sk mw bm bmi mti children)] =
              ([Mesh.mk im ism vis nm geo sk mw bm bmi mti children], []) := by
            simp [routedPair, Mesh.name, hb]
          rw [hsing]
      · rw [if_neg hq, if_neg hq]
        simp

lemma collectRec_routed (m : Mesh) (slot : String) :
    collectRec slot m = routedPair (includedNodes slot m) :=
  collectRec_routed_aux (sizeOf m) m (le_refl _) slot

/-- C9.  collectMeshes routes every qualifying node to baseMeshes exactly
when isBaseMesh accepts its slot or mesh name (slot or name starting with
base, or containing pedestal, case-insensitively) and to characterMeshes
otherwise, in traversal order; the Pedestal-and-Torso scene yields
baseMeshes = [Pedestal] and characterMeshes = [Torso]. -/
theorem collectMeshes_spec :
    (∀ display : List (String × Mesh),
      collectMeshes display =
        ⟨((includedNodesOf display).filter
            (fun p => !isBaseMesh p.1 p.2.name)).map Prod.snd,
          ((includedNodesOf display).filter
            (fun p => isBaseMesh p.1 p.2.name)).map Prod.snd⟩) ∧
    collectMeshes [("base_01", pedestalMesh), ("body", torsoMesh)] =
      ⟨[torsoMesh], [pedestalMesh]⟩ := by
  constructor
  · intro display
    have key : ∀ d : List (String × Mesh),
        (((d.map (fun p =>
            if ['_'].isPrefixOf p.1.data then ([], []) else collectRec p.1 p.2)).map
            Prod.fst).flatten,
         ((d.map (fun p =>
            if ['_'].isPrefixOf p.1.data then ([], []) else collectRec p.1 p.2)).map
            Prod.snd).flatten) =
          routedPair (d.flatMap (fun p =>
            if ['_'].isPrefixOf p.1.data then [] else includedNodes p.1 p.2)) := by
      intro d
      induction d with
      | nil => rfl
      | cons p rest ih =>
        simp only [List.map_cons, List.flatMap_cons, List.flatten_cons]
        by_cases hu : ['_'].isPrefixOf p.1.data
        · simp only [hu, if_pos, if_true]
          rw [routedPair_append, ← ih]
          rfl
        · simp only [hu, if_neg, if_false, Bool.false_eq_true]
          rw [routedPair_append, ← ih, collectRec_routed]
    unfold collectMeshes includedNodesOf
    exact congrArg₂ CollectedMeshes.mk
      (congrArg Prod.fst (key display)) (congrArg Prod.snd (key display))
  · rfl

lemma u16le_length (n : ℕ) : (u16le n).length = 2 := rfl

lemma u32le_length (n : ℕ) : (u32le n).length = 4 := rfl

lemma take_append_of_len {α : Type} (A B : List α) (n : ℕ) (h : A.length = n) :
    (A ++ B).take n = A := by
  subst h
  exact List.take_left A B

lemma drop_append_of_len {α : Type} (A B : List α) (n k : ℕ) (h : A.length = n) :
    (A ++ B).drop (n + k) = B.drop k := by
  subst h
  rw [← List.drop_drop, List.drop_left]

lemma drop_append_of_len0 {α : Type} (A B : List α) (n : ℕ) (h : A.length = n) :
    (A ++ B).drop n = B := by
  have := drop_append_of_len A B n 0 h
  simpa using this

lemma stlHeader_length (label : List ℕ) :
    ((List.range 80).map (fun i => label.getD i 0 % 256)).length = 80 := by
  rw [List.length_map, List.length_range]

lemma stlRecord_length (f32 : ℝ → List ℕ) (hf : ∀ r : ℝ, (f32 r).length = 4)
    (t : Triangle) : (stlRecord f32 t).length = 50 := by
  simp [stlRecord, hf]

lemma stlRecords_length (f32 : ℝ → List ℕ) (hf : ∀ r : ℝ, (f32 r).length = 4) :
    ∀ ts : List Triangle, (ts.flatMap (stlRecord f32)).length = 50 * ts.length := by
  intro ts
  induction ts with
  | nil => rfl
  | cons t ts ih =>
    rw [List.flatMap_cons, List.length_append, ih, stlRecord_length f32 hf,
      List.length_cons]
    ring

/-- C10.  The STL buffer always has byte length 80 + 4 + 50 * count: the
header is the first 80 label character codes (mod 256 as setUint8 stores
them, plainly when the codes are bytes), truncated or zero-padded to 80
bytes, so an oversized label never shifts the count field at offset 80 or
the triangle records at offset 84. -/
theorem trianglesToSTL_layout_spec (f32 : ℝ → List ℕ) (ts : List Triangle)
    (label : List ℕ) (hf : ∀ r : ℝ, (f32 r).length = 4) :
    (trianglesToSTL f32 ts label).length = 80 + 4 + 50 * ts.length ∧
    (trianglesToSTL f32 ts label).take 80 =
      (List.range 80).map (fun i => label.getD i 0 % 256) ∧
    ((∀ c ∈ label, c < 256) →
      (trianglesToSTL f32 ts label).take 80 =
        (List.range 80).map (fun i => label.getD i 0)) ∧
    ((trianglesToSTL f32 ts label).drop 80).take 4 = u32le ts.length ∧
    (trianglesToSTL f32 ts label).drop 84 = ts.flatMap (stlRecord f32) := by
  have hplain : (∀ c ∈ label, c < 256) →
      ((List.range 80).map (fun i => label.getD i 0 % 256)) =
        (List.range 80).map (fun i => label.getD i 0) := by
    intro hc
    apply List.map_congr_left
    intro i _
    rcases lt_or_le i label.length with hi | hi
    · rw [List.getD_eq_getElem _ _ hi]
      exact Nat.mod_eq_of_lt (hc _ (List.getElem_mem hi))
    · rw [List.getD_eq_default _ _ hi]
  refine ⟨?_, ?_, ?_, ?_, ?_⟩
  · unfold trianglesToSTL
    rw [List.length_append, List.length_append, stlHeader_length, u32le_length,
      stlRecords_length f32 hf]
  · unfold trianglesToSTL
    rw [List.append_assoc, take_append_of_len _ _ 80 (stlHeader_length label)]
  · intro hc
    unfold trianglesToSTL
    rw [List.append_assoc, take_append_of_len _ _ 80 (stlHeader_length label),
      hplain hc]
  · unfold trianglesToSTL
    rw [List.append_assoc, drop_append_of_len0 _ _ 80 (stlHeader_length label),
      take_append_of_len _ _ 4 (u32le_length _)]
  · unfold trianglesToSTL
    rw [List.append_assoc, show (84 : ℕ) = 80 + 4 from rfl,
      drop_append_of_len _ _ 80 4 (stlHeader_length label),
      drop_append_of_len0 _ _ 4 (u32le_length _)]

/-- Witness for C10 at a concrete one-triangle list, a constant
length-four codec and an oversized 100-code label. -/
theorem trianglesToSTL_layout_spec_witness :
    (∀ r : ℝ, ((fun _ => [0, 0, 0, 0] : ℝ → List ℕ) r).length = 4) ∧
    (trianglesToSTL (fun _ => [0, 0, 0, 0]) w5ts (List.replicate 100 65)).length =
      80 + 4 + 50 * w5ts.length :=
  ⟨fun _ => rfl,
   (trianglesToSTL_layout_spec (fun _ => [0, 0, 0, 0]) w5ts
     (List.replicate 100 65) (fun _ => rfl)).1⟩

lemma calculateNormal_eq_ite (v1 v2 v3 : Vertex) :
    calculateNormal v1 v2 v3 =
      if 0 < crossNorm v1 v2 v3 then
        ⟨(crossR v1 v2 v3).nx / crossNorm v1 v2 v3,
         (crossR v1 v2 v3).ny / crossNorm v1 v2 v3,
         (crossR v1 v2 v3).nz / crossNorm v1 v2 v3⟩
      else crossR v1 v2 v3 :=
  rfl

lemma calculateNormal_cases (v1 v2 v3 : Vertex) :
    (crossR v1 v2 v3 = ⟨0, 0, 0⟩ → calculateNormal v1 v2 v3 = ⟨0, 0, 0⟩) ∧
    (crossR v1 v2 v3 ≠ ⟨0, 0, 0⟩ →
      0 < crossNorm v1 v2 v3 ∧
      calculateNormal v1 v2 v3 =
        ⟨(crossR v1 v2 v3).nx / crossNorm v1 v2 v3,
         (crossR v1 v2 v3).ny / crossNorm v1 v2 v3,
         (crossR v1 v2 v3).nz / crossNorm v1 v2 v3⟩ ∧
      (calculateNormal v1 v2 v3).nx ^ 2 + (calculateNormal v1 v2 v3).ny ^ 2 +
        (calculateNormal v1 v2 v3).nz ^ 2 = 1) := by
  have hN : crossNorm v1 v2 v3 =
      Real.sqrt ((crossR v1 v2 v3).nx * (crossR v1 v2 v3).nx +
        (crossR v1 v2 v3).ny * (crossR v1 v2 v3).ny +
        (crossR v1 v2 v3).nz * (crossR v1 v2 v3).nz) := rfl
  constructor
  · intro h0
    rw [calculateNormal_eq_ite, hN, h0]
    norm_num
  · intro hne
    have hsome : (crossR v1 v2 v3).nx ≠ 0 ∨ (crossR v1 v2 v3).ny ≠ 0 ∨
        (crossR v1 v2 v3).nz ≠ 0 := by
      by_contra hall
      push_neg at hall
      apply hne
      cases hE : crossR v1 v2 v3 with
      | mk a b c =>
        rw [hE] at hall
        simp only at hall
        rw [hall.1, hall.2.1, hall.2.2]
    have hSpos : 0 < (crossR v1 v2 v3).nx * (crossR v1 v2 v3).nx +
        (crossR v1 v2 v3).ny * (crossR v1 v2 v3).ny +
        (crossR v1 v2 v3).nz * (crossR v1 v2 v3).nz := by
      rcases hsome with h | h | h
      · have h1 := mul_self_pos.mpr h
        nlinarith [mul_self_nonneg (crossR v1 v2 v3).ny,
          mul_self_nonneg (crossR v1 v2 v3).nz]
      · have h1 := mul_self_pos.mpr h
        nlinarith [mul_self_nonneg (crossR v1 v2 v3).nx,
          mul_self_nonneg (crossR v1 v2 v3).nz]
      · have h1 := mul_self_pos.mpr h
        nlinarith [mul_self_nonneg (crossR v1 v2 v3).nx,
          mul_self_nonneg (crossR v1 v2 v3).ny]
    have hLpos : 0 < crossNorm v1 v2 v3 := by
      rw [hN]
      exact Real.sqrt_pos.mpr hSpos
    refine ⟨hLpos, ?_, ?_⟩
    · rw [calculateNormal_eq_ite, if_pos hLpos]
    · rw [calculateNormal_eq_ite, if_pos hLpos]
      have hLne : crossNorm v1 v2 v3 ≠ 0 := ne_of_gt hLpos
      have hL2 : crossNorm v1 v2 v3 ^ 2 =
          (crossR v1 v2 v3).nx * (crossR v1 v2 v3).nx +
          (crossR v1 v2 v3).ny * (crossR v1 v2 v3).ny +
          (crossR v1 v2 v3).nz * (crossR v1 v2 v3).nz := by
        rw [hN]
        exact Real.sq_sqrt (le_of_lt hSpos)
      simp only
      field_simp
      rw [hL2]
      ring

lemma records_drop (f32 : ℝ → List ℕ) (hf : ∀ r : ℝ, (f32 r).length = 4) :
    ∀ (i : ℕ) (ts : List Triangle),
      (ts.flatMap (stlRecord f32)).drop (50 * i) = (ts.drop i).flatMap (stlRecord f32) := by
  intro i
  induction i with
  | zero => intro ts; simp
  | succ i ih =>
    intro ts
    cases ts with
    | nil => simp
    | cons t ts =>
      rw [List.flatMap_cons, show 50 * (i + 1) = 50 + 50 * i from by ring,
        drop_append_of_len _ _ 50 (50 * i) (stlRecord_length f32 hf t), ih ts,
        List.drop_succ_cons]

lemma getD_skip (pre C : List ℕ) (off j : ℕ) (h : pre.length = off) :
    (pre ++ C).getD (off + j) 0 = C.getD j 0 := by
  rw [List.getD_append_right _ _ _ _ (by omega)]
  congr 1
  omega

lemma readU32le_spec (pre : List ℕ) (x : ℕ) (rest : List ℕ) (off : ℕ)
    (hpre : pre.length = off) (hx : x < 4294967296) :
    readU32le (pre ++ (u32le x ++ rest)) off = x := by
  unfold readU32le
  have e0 : (pre ++ (u32le x ++ rest)).getD off 0 = (u32le x ++ rest).getD 0 0 := by
    rw [show off = off + 0 from by omega]
    exact getD_skip _ _ _ _ hpre
  have e1 := getD_skip pre (u32le x ++ rest) off 1 hpre
  have e2 := getD_skip pre (u32le x ++ rest) off 2 hpre
  have e3 := getD_skip pre (u32le x ++ rest) off 3 hpre
  rw [e0, e1, e2, e3]
  have g0 : (u32le x ++ rest).getD 0 0 = x % 256 :=
    List.getD_append _ _ _ _ (by simp [u32le])
  have g1 : (u32le x ++ rest).getD 1 0 = x / 256 % 256 :=
    List.getD_append _ _ _ _ (by simp [u32le])
  have g2 : (u32le x ++ rest).getD 2 0 = x / 65536 % 256 :=
    List.getD_append _ _ _ _ (by simp [u32le])
  have g3 : (u32le x ++ rest).getD 3 0 = x / 16777216 % 256 :=
    List.getD_append _ _ _ _ (by simp [u32le])
  rw [g0, g1, g2, g3]
  omega

/-- C6.  The STL buffer round-trips: the little-endian count at offset 80
reads back the exact triangle count, each 50-byte record at offset
84 + 50i is the float32-encoded normal followed by the nine encoded vertex
coordinates and two zero bytes, and the emitted normal is the normalised
cross product of (v2 - v1) and (v3 - v1), or that cross product
unnormalised (the zero vector) when it has zero length. -/
theorem trianglesToSTL_roundtrip_spec (f32 : ℝ → List ℕ) (ts : List Triangle)
    (label : List ℕ) (hf : ∀ r : ℝ, (f32 r).length = 4)
    (hn : ts.length < 4294967296) :
    readU32le (trianglesToSTL f32 ts label) 80 = ts.length ∧
    (∀ i (hi : i < ts.length),
      ((trianglesToSTL f32 ts label).drop (84 + 50 * i)).take 50 =
        stlRecord f32 (ts.get ⟨i, hi⟩)) ∧
    (∀ t : Triangle, stlRecord f32 t =
      f32 (calculateNormal t.v1 t.v2 t.v3).nx ++ f32 (calculateNormal t.v1 t.v2 t.v3).ny ++
      f32 (calculateNormal t.v1 t.v2 t.v3).nz ++
      f32 (t.v1.x : ℝ) ++ f32 (t.v1.y : ℝ) ++ f32 (t.v1.z : ℝ) ++
      f32 (t.v2.x : ℝ) ++ f32 (t.v2.y : ℝ) ++ f32 (t.v2.z : ℝ) ++
      f32 (t.v3.x : ℝ) ++ f32 (t.v3.y : ℝ) ++ f32 (t.v3.z : ℝ) ++ [0, 0]) ∧
    (∀ v1 v2 v3 : Vertex,
      (crossR v1 v2 v3 = ⟨0, 0, 0⟩ → calculateNormal v1 v2 v3 = ⟨0, 0, 0⟩) ∧
      (crossR v1 v2 v3 ≠ ⟨0, 0, 0⟩ →
        0 < crossNorm v1 v2 v3 ∧
        calculateNormal v1 v2 v3 =
          ⟨(crossR v1 v2 v3).nx / crossNorm v1 v2 v3,
           (crossR v1 v2 v3).ny / crossNorm v1 v2 v3,
           (crossR v1 v2 v3).nz / crossNorm v1 v2 v3⟩ ∧
        (calculateNormal v1 v2 v3).nx ^ 2 + (calculateNormal v1 v2 v3).ny ^ 2 +
          (calculateNormal v1 v2 v3).nz ^ 2 = 1)) := by
  refine ⟨?_, ?_, fun t => ?_, fun v1 v2 v3 => calculateNormal_cases v1 v2 v3⟩
  · unfold trianglesToSTL
    rw [List.append_assoc]
    exact readU32le_spec _ _ _ _ (stlHeader_length label) hn
  · intro i hi
    unfold trianglesToSTL
    rw [List.append_assoc, show (84 : ℕ) + 50 * i = 80 + (4 + 50 * i) from by ring,
      drop_append_of_len _ _ 80 _ (stlHeader_length label),
      drop_append_of_len _ _ 4 _ (u32le_length _),
      records_drop f32 hf i ts, List.drop_eq_getElem_cons hi, List.flatMap_cons,
      take_append_of_len _ _ 50 (stlRecord_length f32 hf _)]
    rfl
  · simp [stlRecord]

/-- Witness for C6 at a concrete one-triangle list and a constant
length-four codec. -/
theorem trianglesToSTL_roundtrip_spec_witness :
    (∀ r : ℝ, ((fun _ => [0, 0, 0, 0] : ℝ → List ℕ) r).length = 4) ∧
    w5ts.length < 4294967296 ∧
    readU32le (trianglesToSTL (fun _ => [0, 0, 0, 0]) w5ts defaultHeaderText) 80 =
      w5ts.length :=
  ⟨fun _ => rfl, by norm_num [w5ts],
   (trianglesToSTL_roundtrip_spec (fun _ => [0, 0, 0, 0]) w5ts defaultHeaderText
     (fun _ => rfl) (by norm_num [w5ts])).1⟩

lemma flatten_drop_prefix :
    ∀ (i : ℕ) (L : List (List ℕ)),
      L.flatten.drop (((L.take i).map List.length).sum) = (L.drop i).flatten := by
  intro i
  induction i with
  | zero => intro L; simp
  | succ i ih =>
    intro L
    cases L with
    | nil => simp
    | cons A L =>
      rw [List.take_succ_cons, List.map_cons, List.sum_cons, List.flatten_cons,
        drop_append_of_len A L.flatten A.length _ rfl, ih L, List.drop_succ_cons]

lemma sum_take_le_sum (L : List (List ℕ)) (i : ℕ) :
    ((L.take i).map List.length).sum ≤ (L.map List.length).sum := by
  conv_rhs => rw [← List.take_append_drop i L]
  rw [List.map_append, List.sum_append]
  omega

lemma centralHeaderBytes_length (f : ZipFile) (off : ℕ) :
    (SimpleZip.centralHeaderBytes f off).length = 46 + f.name.length := by
  simp [SimpleZip.centralHeaderBytes, u32le, u16le]
  omega

lemma localOffsetOf_eq (files : List ZipFile) (i : ℕ) :
    SimpleZip.localOffsetOf files i =
      (((files.map SimpleZip.localChunk).take i).map List.length).sum := by
  unfold SimpleZip.localOffsetOf
  rw [← List.map_take, List.map_map]
  rfl

lemma centralRecords_length (files : List ZipFile) :
    (SimpleZip.centralRecords files).length = files.length := by
  simp [SimpleZip.centralRecords]

lemma centralRecords_take_sum (files : List ZipFile) :
    ∀ i, i ≤ files.length →
      (((SimpleZip.centralRecords files).take i).map List.length).sum =
        SimpleZip.centralOffsetOf files i := by
  intro i
  induction i with
  | zero => intro _; rfl
  | succ i ih =>
    intro hi
    have hii : i < files.length := by omega
    have ih2 := ih (by omega)
    unfold SimpleZip.centralRecords SimpleZip.centralOffsetOf at ih2 ⊢
    rw [← List.map_take, List.take_range, Nat.min_eq_left hi, List.range_succ,
      List.map_append, List.map_append, List.sum_append, List.take_succ,
      List.getElem?_eq_getElem hii, List.map_append, List.sum_append]
    rw [← List.map_take, List.take_range, Nat.min_eq_left (le_of_lt hii)] at ih2
    rw [ih2]
    simp [centralHeaderBytes_length, List.getD_eq_getElem _ _ hii,
      List.getElem?_eq_getElem hii]

lemma generate_eq (files : List ZipFile) :
    SimpleZip.generate files =
      (files.map SimpleZip.localChunk).flatten ++
        ((SimpleZip.centralRecords files).flatten ++
          SimpleZip.eocdBytes files.length
            ((SimpleZip.centralRecords files).map List.length).sum
            (SimpleZip.centralBase files)) := by
  unfold SimpleZip.generate SimpleZip.centralBase
  rw [List.append_assoc]

lemma locals_region (files : List ZipFile) (i : ℕ) (hi : i < files.length) :
    (SimpleZip.generate files).drop (SimpleZip.localOffsetOf files i) =
      SimpleZip.localChunk (files.get ⟨i, hi⟩) ++
        (((files.map SimpleZip.localChunk).drop (i + 1)).flatten ++
          ((SimpleZip.centralRecords files).flatten ++
            SimpleZip.eocdBytes files.length
              ((SimpleZip.centralRecords files).map List.length).sum
              (SimpleZip.centralBase files))) := by
  rw [generate_eq]
  have hle : SimpleZip.localOffsetOf files i ≤
      ((files.map SimpleZip.localChunk).flatten).length := by
    rw [List.length_flatten, localOffsetOf_eq]
    exact sum_take_le_sum _ _
  rw [List.drop_append_of_le_length hle, localOffsetOf_eq, flatten_drop_prefix]
  have hlen : i < (files.map SimpleZip.localChunk).length := by
    simpa using hi
  rw [List.drop_eq_getElem_cons hlen, List.flatten_cons, List.getElem_map,
    List.append_assoc]
  rfl

lemma centrals_region (files : List ZipFile) (i : ℕ) (hi : i < files.length) :
    (SimpleZip.generate files).drop
        (SimpleZip.centralBase files + SimpleZip.centralOffsetOf files i) =
      SimpleZip.centralHeaderBytes (files.get ⟨i, hi⟩)
          (SimpleZip.localOffsetOf files i) ++
        (((SimpleZip.centralRecords files).drop (i + 1)).flatten ++
          SimpleZip.eocdBytes files.length
            ((SimpleZip.centralRecords files).map List.length).sum
            (SimpleZip.centralBase files)) := by
  rw [generate_eq]
  have hbase : ((files.map SimpleZip.localChunk).flatten).length =
      SimpleZip.centralBase files := by
    rw [List.length_flatten]
    rfl
  rw [drop_append_of_len _ _ (SimpleZip.centralBase files)
    (SimpleZip.centralOffsetOf files i) hbase]
  have hle : SimpleZip.centralOffsetOf files i ≤
      ((SimpleZip.centralRecords files).flatten).length := by
    rw [List.length_flatten, ← centralRecords_take_sum files i (le_of_lt hi)]
    exact sum_take_le_sum _ _
  rw [List.drop_append_of_le_length hle,
    ← centralRecords_take_sum files i (le_of_lt hi), flatten_drop_prefix]
  have hlen : i < (SimpleZip.centralRecords files).length := by
    rw [centralRecords_length]
    exact hi
  rw [List.drop_eq_getElem_cons hlen, List.flatten_cons, List.append_assoc]
  congr 2
  unfold SimpleZip.centralRecords
  rw [List.getElem_map, List.getElem_range, List.getD_eq_getElem _ _ hi]
  rfl

lemma localChunk_expand (f : ZipFile) (R : List ℕ) :
    SimpleZip.localChunk f ++ R =
      u32le 0x04034b50 ++ (u16le 20 ++ (u16le 0 ++ (u16le 0 ++ (u16le 0 ++
        (u16le 0 ++ (u32le (SimpleZip.crc32 f.data) ++ (u32le f.data.length ++
          (u32le f.data.length ++ (u16le f.name.length ++ (u16le 0 ++
            (f.name ++ (f.data ++ R)))))))))))) := by
  simp only [SimpleZip.localChunk, SimpleZip.localHeaderBytes, List.append_assoc]

lemma centralHeaderBytes_expand (f : ZipFile) (off : ℕ) (R : List ℕ) :
    SimpleZip.centralHeaderBytes f off ++ R =
      u32le 0x02014b50 ++ (u16le 20 ++ (u16le 20 ++ (u16le 0 ++ (u16le 0 ++
        (u16le 0 ++ (u16le 0 ++ (u32le (SimpleZip.crc32 f.data) ++
          (u32le f.data.length ++ (u32le f.data.length ++
            (u16le f.name.length ++ (u16le 0 ++ (u16le 0 ++ (u16le 0 ++
              (u16le 0 ++ (u32le 0 ++ (u32le off ++ (f.name ++ R))))))))))))))))) := by
  simp only [SimpleZip.centralHeaderBytes, List.append_assoc]

lemma localChunk_suffix14 (f : ZipFile) (R : List ℕ) :
    (SimpleZip.localChunk f ++ R).drop 14 =
      u32le (SimpleZip.crc32 f.data) ++ (u32le f.data.length ++
        (u32le f.data.length ++ (u16le f.name.length ++
          (u16le 0 ++ (f.name ++ (f.data ++ R)))))) := by
  rw [localChunk_expand, show (14 : ℕ) = 4 + (2 + (2 + (2 + (2 + (2 + 0))))) from rfl,
    drop_append_of_len _ _ 4 _ (u32le_length _),
    drop_append_of_len _ _ 2 _ (u16le_length _),
    drop_append_of_len _ _ 2 _ (u16le_length _),
    drop_append_of_len _ _ 2 _ (u16le_length _),
    drop_append_of_len _ _ 2 _ (u16le_length _),
    drop_append_of_len _ _ 2 _ (u16le_length _), List.drop_zero]

lemma localChunk_suffix18 (f : ZipFile) (R : List ℕ) :
    (SimpleZip.localChunk f ++ R).drop 18 =
      u32le f.data.length ++ (u32le f.data.length ++ (u16le f.name.length ++
        (u16le 0 ++ (f.name ++ (f.data ++ R))))) := by
  rw [localChunk_expand,
    show (18 : ℕ) = 4 + (2 + (2 + (2 + (2 + (2 + (4 + 0)))))) from rfl,
    drop_append_of_len _ _ 4 _ (u32le_length _),
    drop_append_of_len _ _ 2 _ (u16le_length _),
    drop_append_of_len _ _ 2 _ (u16le_length _),
    drop_append_of_len _ _ 2 _ (u16le_length _),
    drop_append_of_len _ _ 2 _ (u16le_length _),
    drop_append_of_len _ _ 2 _ (u16le_length _),
    drop_append_of_len _ _ 4 _ (u32le_length _), List.drop_zero]

lemma localChunk_suffix26 (f : ZipFile) (R : List ℕ) :
    (SimpleZip.localChunk f ++ R).drop 26 =
      u16le f.name.length ++ (u16le 0 ++ (f.name ++ (f.data ++ R))) := by
  rw [localChunk_expand,
    show (26 : ℕ) = 4 + (2 + (2 + (2 + (2 + (2 + (4 + (4 + (4 + 0)))))))) from rfl,
    drop_append_of_len _ _ 4 _ (u32le_length _),
    drop_append_of_len _ _ 2 _ (u16le_length _),
    drop_append_of_len _ _ 2 _ (u16le_length _),
    drop_append_of_len _ _ 2 _ (u16le_length _),
    drop_append_of_len _ _ 2 _ (u16le_length _),
    drop_append_of_len _ _ 2 _ (u16le_length _),
    drop_append_of_len _ _ 4 _ (u32le_length _),
    drop_append_of_len _ _ 4 _ (u32le_length _),
    drop_append_of_len _ _ 4 _ (u32le_length _), List.drop_zero]

lemma localChunk_suffix30 (f : ZipFile) (R : List ℕ) :
    (SimpleZip.localChunk f ++ R).drop 30 = f.name ++ (f.data ++ R) := by
  rw [localChunk_expand,
    show (30 : ℕ) =
      4 + (2 + (2 + (2 + (2 + (2 + (4 + (4 + (4 + (2 + (2 + 0)))))))))) from rfl,
    drop_append_of_len _ _ 4 _ (u32le_length _),
    drop_append_of_len _ _ 2 _ (u16le_length _),
    drop_append_of_len _ _ 2 _ (u16le_length _),
    drop_append_of_len _ _ 2 _ (u16le_length _),
    drop_append_of_len _ _ 2 _ (u16le_length _),
    drop_append_of_len _ _ 2 _ (u16le_length _),
    drop_append_of_len _ _ 4 _ (u32le_length _),
    drop_append_of_len _ _ 4 _ (u32le_length _),
    drop_append_of_len _ _ 4 _ (u32le_length _),
    drop_append_of_len _ _ 2 _ (u16le_length _),
    drop_append_of_len _ _ 2 _ (u16le_length _), List.drop_zero]

lemma centralHeaderBytes_suffix16 (f : ZipFile) (off : ℕ) (R : List ℕ) :
    (SimpleZip.centralHeaderBytes f off ++ R).drop 16 =
      u32le (SimpleZip.crc32 f.data) ++ (u32le f.data.length ++
        (u32le f.data.length ++ (u16le f.name.length ++ (u16le 0 ++
          (u16le 0 ++ (u16le 0 ++ (u16le 0 ++ (u32le 0 ++
            (u32le off ++ (f.name ++ R)))))))))) := by
  rw [centralHeaderBytes_expand,
    show (16 : ℕ) = 4 + (2 + (2 + (2 + (2 + (2 + (2 + 0)))))) from rfl,
    drop_append_of_len _ _ 4 _ (u32le_length _),
    drop_append_of_len _ _ 2 _ (u16le_length _),
    drop_append_of_len _ _ 2 _ (u16le_length _),
    drop_append_of_len _ _ 2 _ (u16le_length _),
    drop_append_of_len _ _ 2 _ (u16le_length _),
    drop_append_of_len _ _ 2 _ (u16le_length _),
    drop_append_of_len _ _ 2 _ (u16le_length _), List.drop_zero]

lemma centralHeaderBytes_suffix42 (f : ZipFile) (off : ℕ) (R : List ℕ) :
    (SimpleZip.centralHeaderBytes f off ++ R).drop 42 =
      u32le off ++ (f.name ++ R) := by
  rw [centralHeaderBytes_expand,
    show (42 : ℕ) = 4 + (2 + (2 + (2 + (2 + (2 + (2 + (4 + (4 + (4 +
      (2 + (2 + (2 + (2 + (2 + (4 + 0))))))))))))))) from rfl,
    drop_append_of_len _ _ 4 _ (u32le_length _),
    drop_append_of_len _ _ 2 _ (u16le_length _),
    drop_append_of_len _ _ 2 _ (u16le_length _),
    drop_append_of_len _ _ 2 _ (u16le_length _),
    drop_append_of_len _ _ 2 _ (u16le_length _),
    drop_append_of_len _ _ 2 _ (u16le_length _),
    drop_append_of_len _ _ 2 _ (u16le_length _),
    drop_append_of_len _ _ 4 _ (u32le_length _),
    drop_append_of_len _ _ 4 _ (u32le_length _),
    drop_append_of_len _ _ 4 _ (u32le_length _),
    drop_append_of_len _ _ 2 _ (u16le_length _),
    drop_append_of_len _ _ 2 _ (u16le_length _),
    drop_append_of_len _ _ 2 _ (u16le_length _),
    drop_append_of_len _ _ 2 _ (u16le_length _),
    drop_append_of_len _ _ 2 _ (u16le_length _),
    drop_append_of_len _ _ 4 _ (u32le_length _), List.drop_zero]

lemma centralHeaderBytes_suffix46 (f : ZipFile) (off : ℕ) (R : List ℕ) :
    (SimpleZip.centralHeaderBytes f off ++ R).drop 46 = f.name ++ R := by
  rw [centralHeaderBytes_expand,
    show (46 : ℕ) = 4 + (2 + (2 + (2 + (2 + (2 + (2 + (4 + (4 + (4 +
      (2 + (2 + (2 + (2 + (2 + (4 + (4 + 0)))))))))))))))) from rfl,
    drop_append_of_len _ _ 4 _ (u32le_length _),
    drop_append_of_len _ _ 2 _ (u16le_length _),
    drop_append_of_len _ _ 2 _ (u16le_length _),
    drop_append_of_len _ _ 2 _ (u16le_length _),
    drop_append_of_len _ _ 2 _ (u16le_length _),
    drop_append_of_len _ _ 2 _ (u16le_length _),
    drop_append_of_len _ _ 2 _ (u16le_length _),
    drop_append_of_len _ _ 4 _ (u32le_length _),
    drop_append_of_len _ _ 4 _ (u32le_length _),
    drop_append_of_len _ _ 4 _ (u32le_length _),
    drop_append_of_len _ _ 2 _ (u16le_length _),
    drop_append_of_len _ _ 2 _ (u16le_length _),
    drop_append_of_len _ _ 2 _ (u16le_length _),
    drop_append_of_len _ _ 2 _ (u16le_length _),
    drop_append_of_len _ _ 2 _ (u16le_length _),
    drop_append_of_len _ _ 4 _ (u32le_length _),
    drop_append_of_len _ _ 4 _ (u32le_length _), List.drop_zero]

/-- C7.  The archive round-trips: for every entry, the local record at
its computed offset carries the signature, the CRC-32 of the data, the
stored and uncompressed sizes, the name length, the name bytes and the raw
data bytes in insertion order, and the central record at the central
directory offset carries the signature, the same CRC-32, the byte offset
of the local record from the start of the buffer, and the name bytes. -/
theorem SimpleZip_generate_roundtrip (files : List ZipFile) (i : ℕ)
    (hi : i < files.length) :
    ((SimpleZip.generate files).drop (SimpleZip.localOffsetOf files i)).take 4 =
        u32le 0x04034b50 ∧
    ((SimpleZip.generate files).drop (SimpleZip.localOffsetOf files i + 14)).take 4 =
        u32le (SimpleZip.crc32 (files.get ⟨i, hi⟩).data) ∧
    ((SimpleZip.generate files).drop (SimpleZip.localOffsetOf files i + 18)).take 4 =
        u32le (files.get ⟨i, hi⟩).data.length ∧
    ((SimpleZip.generate files).drop (SimpleZip.localOffsetOf files i + 26)).take 2 =
        u16le (files.get ⟨i, hi⟩).name.length ∧
    ((SimpleZip.generate files).drop (SimpleZip.localOffsetOf files i + 30)).take
        (files.get ⟨i, hi⟩).name.length = (files.get ⟨i, hi⟩).name ∧
    ((SimpleZip.generate files).drop
        (SimpleZip.localOffsetOf files i + 30 + (files.get ⟨i, hi⟩).name.length)).take
        (files.get ⟨i, hi⟩).data.length = (files.get ⟨i, hi⟩).data ∧
    ((SimpleZip.generate files).drop
        (SimpleZip.centralBase files + SimpleZip.centralOffsetOf files i)).take 4 =
        u32le 0x02014b50 ∧
    ((SimpleZip.generate files).drop
        (SimpleZip.centralBase files + SimpleZip.centralOffsetOf files i + 16)).take 4 =
        u32le (SimpleZip.crc32 (files.get ⟨i, hi⟩).data) ∧
    ((SimpleZip.generate files).drop
        (SimpleZip.centralBase files + SimpleZip.centralOffsetOf files i + 42)).take 4 =
        u32le (SimpleZip.localOffsetOf files i) ∧
    ((SimpleZip.generate files).drop
        (SimpleZip.centralBase files + SimpleZip.centralOffsetOf files i + 46)).take
        (files.get ⟨i, hi⟩).name.length = (files.get ⟨i, hi⟩).name := by
  refine ⟨?_, ?_, ?_, ?_, ?_, ?_, ?_, ?_, ?_, ?_⟩
  · rw [locals_region files i hi, localChunk_expand]
    exact take_append_of_len _ _ 4 (u32le_length _)
  · rw [← List.drop_drop, locals_region files i hi, localChunk_suffix14]
    exact take_append_of_len _ _ 4 (u32le_length _)
  · rw [← List.drop_drop, locals_region files i hi, localChunk_suffix18]
    exact take_append_of_len _ _ 4 (u32le_length _)
  · rw [← List.drop_drop, locals_region files i hi, localChunk_suffix26]
    exact take_append_of_len _ _ 2 (u16le_length _)
  · rw [← List.drop_drop, locals_region files i hi, localChunk_suffix30]
    exact take_append_of_len _ _ _ rfl
  · rw [Nat.add_assoc, ← List.drop_drop, locals_region files i hi,
      ← List.drop_drop, localChunk_suffix30,
      drop_append_of_len0 _ _ _ (rfl : (files.get ⟨i, hi⟩).name.length = _)]
    exact take_append_of_len _ _ _ rfl
  · rw [centrals_region files i hi, centralHeaderBytes_expand]
    exact take_append_of_len _ _ 4 (u32le_length _)
  · rw [← List.drop_drop, centrals_region files i hi, centralHeaderBytes_suffix16]
    exact take_append_of_len _ _ 4 (u32le_length _)
  · rw [← List.drop_drop, centrals_region files i hi, centralHeaderBytes_suffix42]
    exact take_append_of_len _ _ 4 (u32le_length _)
  · rw [← List.drop_drop, centrals_region files i hi, centralHeaderBytes_suffix46]
    exact take_append_of_len _ _ _ rfl

/-- Witness for C7 at a concrete two-entry archive, entry 1. -/
theorem SimpleZip_generate_roundtrip_witness :
    1 < w7files.length ∧
    ((SimpleZip.generate w7files).drop (SimpleZip.localOffsetOf w7files 1)).take 4 =
      u32le 0x04034b50 :=
  ⟨by decide, (SimpleZip_generate_roundtrip w7files 1 (by decide)).1⟩

/-- C8 as amended.  With separateBase true and base meshes present, the
output is the archive named filename.zip: it carries the two entries
filename-character.stl and filename-base.stl when character meshes are
also present, but only filename-base.stl when no character meshes were
collected.  With separateBase false, or no base meshes, the output is the
single buffer filename.stl (when anything was collected at all). -/
theorem exportCharacter_output_spec (f32 : ℝ → List ℕ)
    (collected : CollectedMeshes) (filename : String) (scale : ℚ) :
    (collected.characterMeshes ≠ [] → collected.baseMeshes ≠ [] →
      exportCharacter f32 collected filename scale true =
        .archive (filename ++ ".zip")
          [(filename ++ "-character.stl",
            trianglesToSTL f32
              (transformTriangles (collectTriangles collected.characterMeshes).1 scale)
              characterHeaderText),
           (filename ++ "-base.stl",
            trianglesToSTL f32
              (transformTriangles (collectTriangles collected.baseMeshes).1 scale)
              baseHeaderText)]) ∧
    (collected.characterMeshes = [] → collected.baseMeshes ≠ [] →
      exportCharacter f32 collected filename scale true =
        .archive (filename ++ ".zip")
          [(filename ++ "-base.stl",
            trianglesToSTL f32
              (transformTriangles (collectTriangles collected.baseMeshes).1 scale)
              baseHeaderText)]) ∧
    (∀ separateBase : Bool,
      (separateBase = false ∨ collected.baseMeshes = []) →
      ¬(collected.characterMeshes = [] ∧ collected.baseMeshes = []) →
      exportCharacter f32 collected filename scale separateBase =
        .single (filename ++ ".stl")
          (trianglesToSTL f32
            (transformTriangles
              (collectTriangles
                (collected.characterMeshes ++ collected.baseMeshes)).1 scale)
            defaultHeaderText)) := by
  refine ⟨?_, ?_, ?_⟩
  · intro hc hb
    cases hME : collected.characterMeshes with
    | nil => exact absurd hME hc
    | cons m ms =>
      cases hBE : collected.baseMeshes with
      | nil => exact absurd hBE hb
      | cons b bs =>
        simp [exportCharacter, hME, hBE]
  · intro hc hb
    cases hBE : collected.baseMeshes with
    | nil => exact absurd hBE hb
    | cons b bs =>
      simp [exportCharacter, hc, hBE]
  · intro separateBase hsep hne
    rcases hsep with rfl | hb
    · cases hME : collected.characterMeshes with
      | nil =>
        cases hBE : collected.baseMeshes with
        | nil => exact absurd ⟨hME, hBE⟩ hne
        | cons b bs => simp [exportCharacter, hME, hBE]
      | cons m ms =>
        cases hBE : collected.baseMeshes with
        | nil => simp [exportCharacter, hME, hBE]
        | cons b bs => simp [exportCharacter, hME, hBE]
    · cases hME : collected.characterMeshes with
      | nil => exact absurd ⟨hME, hb⟩ hne
      | cons m ms => simp [exportCharacter, hME, hb]

/-- Witness for the amended C8 at a concrete one-character one-base
scene. -/
theorem exportCharacter_output_spec_witness :
    w8.characterMeshes ≠ [] ∧ w8.baseMeshes ≠ [] ∧
    exportCharacter (fun _ => [0, 0, 0, 0]) w8 "hero" 10 true =
      .archive ("hero" ++ ".zip")
        [("hero" ++ "-character.stl",
          trianglesToSTL (fun _ => [0, 0, 0, 0])
            (transformTriangles (collectTriangles w8.characterMeshes).1 10)
            characterHeaderText),
         ("hero" ++ "-base.stl",
          trianglesToSTL (fun _ => [0, 0, 0, 0])
            (transformTriangles (collectTriangles w8.baseMeshes).1 10)
            baseHeaderText)] :=
  ⟨List.cons_ne_nil _ _, List.cons_ne_nil _ _,
   (exportCharacter_output_spec (fun _ => [0, 0, 0, 0]) w8 "hero" 10).1
     (List.cons_ne_nil _ _) (List.cons_ne_nil _ _)⟩

/-- Counterexample to C8 as stated: with separateBase true and a
non-empty base-mesh list but no character meshes, the archive holds one
named buffer, not two. -/
theorem exportCharacter_two_files_cex :
    archiveFileNames (exportCharacter (fun _ => [0, 0, 0, 0]) cex8 "hero" 10 true) =
      some ["hero-base.stl"] :=
  rfl

end HFE
